import Mathlib

set_option maxHeartbeats 1000000
set_option linter.unusedSectionVars false
set_option linter.unusedVariables false

/-! Shallow embedding of the stock-scanner indicator and momentum-scoring
pipeline (`src/analysis/indicators.py` and `src/analysis/momentum_scorer.py`).

Pandas floating-point series are modelled as lists of `PF α`: exact values
drawn from a linear ordered field `α` together with the IEEE special values
`nan`, `inf` and `ninf` that the pandas arithmetic can produce.  Arithmetic
on `PF` follows IEEE semantics (comparisons with `nan` are false, `0/0` is
`nan`, `x/0` is a signed infinity for `x ≠ 0`, and so on); the zero is
unsigned, which never changes an observable value of this pipeline. -/

inductive PF (α : Type) where
  | nan : PF α
  | inf : PF α
  | ninf : PF α
  | num : α → PF α
deriving DecidableEq, Repr

namespace PF

variable {α : Type} [LinearOrderedField α]

/-- IEEE negation. -/
def neg : PF α → PF α
  | nan => nan
  | inf => ninf
  | ninf => inf
  | num a => num (-a)

/-- IEEE addition. -/
def add : PF α → PF α → PF α
  | nan, _ => nan
  | _, nan => nan
  | inf, ninf => nan
  | ninf, inf => nan
  | inf, _ => inf
  | _, inf => inf
  | ninf, _ => ninf
  | _, ninf => ninf
  | num a, num b => num (a + b)

/-- IEEE subtraction, `a - b = a + (-b)`. -/
def sub (a b : PF α) : PF α := add a (neg b)

/-- IEEE multiplication. -/
def mul : PF α → PF α → PF α
  | nan, _ => nan
  | _, nan => nan
  | inf, inf => inf
  | inf, ninf => ninf
  | ninf, inf => ninf
  | ninf, ninf => inf
  | inf, num b => if b = 0 then nan else if 0 < b then inf else ninf
  | num a, inf => if a = 0 then nan else if 0 < a then inf else ninf
  | ninf, num b => if b = 0 then nan else if 0 < b then ninf else inf
  | num a, ninf => if a = 0 then nan else if 0 < a then ninf else inf
  | num a, num b => num (a * b)

/-- IEEE division (with an unsigned zero: `a / 0` for `a > 0` is `inf`). -/
def div : PF α → PF α → PF α
  | nan, _ => nan
  | _, nan => nan
  | inf, inf => nan
  | inf, ninf => nan
  | ninf, inf => nan
  | ninf, ninf => nan
  | inf, num b => if 0 ≤ b then inf else ninf
  | ninf, num b => if 0 ≤ b then ninf else inf
  | num _, inf => num 0
  | num _, ninf => num 0
  | num a, num b =>
      if b = 0 then (if a = 0 then nan else if 0 < a then inf else ninf)
      else num (a / b)

/-- IEEE strict comparison: any comparison with `nan` is false. -/
def lt : PF α → PF α → Bool
  | nan, _ => false
  | _, nan => false
  | ninf, ninf => false
  | ninf, _ => true
  | _, ninf => false
  | inf, _ => false
  | _, inf => true
  | num a, num b => decide (a < b)

end PF

section Series

variable {α : Type} [LinearOrderedField α]

/-- `Series.diff()`: first element `NaN`, then consecutive differences. -/
def diff : List (PF α) → List (PF α)
  | [] => []
  | x :: xs => PF.nan :: List.zipWith PF.sub xs (x :: xs)

/-- `Series.where(cond, other)`: keep the value where the (elementwise)
condition holds, else replace with `other`. -/
def whereKeep (cond : PF α → Bool) (other : α) (l : List (PF α)) : List (PF α) :=
  l.map fun v => if cond v then v else PF.num other

/-- Mean of a window (sum divided by window length); `nan` and infinities
propagate exactly as pandas produces them for a full window. -/
def meanPF (l : List (PF α)) : PF α :=
  PF.div (l.foldl PF.add (PF.num 0)) (PF.num (l.length : α))

/-- `Series.rolling(window=w).mean()` with the default
`min_periods = w`: positions with fewer than `w` observations are `NaN`,
and a `nan` inside a full window makes the result `nan`. -/
def rollingMean (w : ℕ) (xs : List (PF α)) : List (PF α) :=
  (List.range xs.length).map fun t =>
    if t + 1 < w then PF.nan
    else meanPF ((xs.drop (t + 1 - w)).take w)

/-- `Series.fillna(d)`: replace exactly the `nan` entries by `d`. -/
def fillna (d : α) (l : List (PF α)) : List (PF α) :=
  l.map fun v => if v = PF.nan then PF.num d else v

/-- `TechnicalIndicators.calculate_rsi` (indicators.py):

    delta = prices.diff()
    gain = (delta.where(delta > 0, 0)).rolling(window=period).mean()
    loss = (-delta.where(delta < 0, 0)).rolling(window=period).mean()
    rs = gain / loss
    rsi = 100 - (100 / (1 + rs))
    return rsi.fillna(50) -/
def calculate_rsi (prices : List (PF α)) (period : ℕ := 14) : List (PF α) :=
  let delta := diff prices
  let gain := rollingMean period (whereKeep (fun d => PF.lt (PF.num 0) d) 0 delta)
  let loss := rollingMean period ((whereKeep (fun d => PF.lt d (PF.num 0)) 0 delta).map PF.neg)
  let rs := List.zipWith PF.div gain loss
  let rsi := rs.map fun r => PF.sub (PF.num 100) (PF.div (PF.num 100) (PF.add (PF.num 1) r))
  fillna 50 rsi

end Series

section SeriesNamed

variable {α : Type} [LinearOrderedField α]

/-- The rolling average-gain series computed inside `calculate_rsi`
(`gain = (delta.where(delta > 0, 0)).rolling(window=period).mean()`). -/
def rsiAvgGain (prices : List (PF α)) (period : ℕ := 14) : List (PF α) :=
  rollingMean period (whereKeep (fun d => PF.lt (PF.num 0) d) 0 (diff prices))

/-- The rolling average-loss series computed inside `calculate_rsi`
(`loss = (-delta.where(delta < 0, 0)).rolling(window=period).mean()`). -/
def rsiAvgLoss (prices : List (PF α)) (period : ℕ := 14) : List (PF α) :=
  rollingMean period ((whereKeep (fun d => PF.lt d (PF.num 0)) 0 (diff prices)).map PF.neg)

/-- The pointwise map from the raw RS ratio to the RSI value,
`rsi = 100 - (100 / (1 + rs))`. -/
def rsiOfRs (r : PF α) : PF α :=
  PF.sub (PF.num 100) (PF.div (PF.num 100) (PF.add (PF.num 1) r))

end SeriesNamed

section Scorer

variable {α : Type} [LinearOrderedField α]

/-- `MomentumScorer.score_rsi` (momentum_scorer.py): piecewise-linear map of
the RSI value to a 0-100 sub-score. -/
def score_rsi (rsi : α) : α :=
  if rsi < 30 then min 100 (80 + (30 - rsi) / 3)
  else if rsi < 50 then 40 + (rsi - 30) / 2
  else if rsi < 70 then 60 + (rsi - 50) / 2
  else max 0 (40 - (rsi - 70) / 3)

/-- `MomentumScorer.score_macd` (momentum_scorer.py).  The bullish branch
clamps the histogram magnitude with `min(abs(histogram), 2.0)`; the bearish
branch of the source uses `max(abs(histogram), 0)`, i.e. no upper clamp, and
relies on the final `max(0, score)` floor. -/
def score_macd (macd signal histogram : α) : α :=
  if 0 < histogram then
    min 100 (50 + min |histogram| 2 / 2 * 50)
  else
    max 0 (50 - max |histogram| 0 / 2 * 50)

/-- `MomentumScorer.score_bollinger_bands` (momentum_scorer.py). -/
def score_bollinger_bands (close bb_upper bb_middle bb_lower : α) : α :=
  if bb_upper = bb_lower then 50
  else
    let band_width := bb_upper - bb_lower
    let position := if 0 < band_width then (close - bb_lower) / band_width else (1 / 2 : α)
    let clamped := max 0 (min 1 position)
    100 - clamped * 100

/-- `MomentumScorer.score_price_velocity` (momentum_scorer.py), acting on the
`close` column of the per-symbol frame. -/
def score_price_velocity (closes : List α) (days : ℕ := 5) : α :=
  if closes.length < days + 1 then 50
  else
    let current_price := closes.getLast?.getD 0
    let past_price := closes.getD (closes.length - days - 1) 0
    if past_price = 0 then 50
    else
      let pct_change := (current_price - past_price) / past_price * 100
      if 5 ≤ pct_change then min 100 (80 + pct_change)
      else if 0 ≤ pct_change then 50 + pct_change
      else if -5 ≤ pct_change then 50 + pct_change
      else max 0 (20 + pct_change)

/-- One row of the indicator DataFrame, with the columns
`calculate_momentum_score` reads. -/
structure Row (α : Type) where
  close : α
  rsi_14 : α
  macd_12_26_9 : α
  macd_signal_9 : α
  macd_histogram : α
  bollinger_upper_20 : α
  bollinger_middle_20 : α
  bollinger_lower_20 : α

/-- The velocity branch of `calculate_momentum_score`:
`score_price_velocity(df_symbol)` when `df_symbol is not None` and non-empty,
else the neutral 50. -/
def velocityOf (df_symbol : Option (List α)) : α :=
  match df_symbol with
  | some l => if 0 < l.length then score_price_velocity l 5 else 50
  | none => 50

/-- `MomentumScorer.calculate_momentum_score` (momentum_scorer.py): weighted
average of the four component scores, clamped to [0, 100]. -/
def calculate_momentum_score (row : Row α) (df_symbol : Option (List α)) : α :=
  let rsi_score := score_rsi row.rsi_14
  let macd_score := score_macd row.macd_12_26_9 row.macd_signal_9 row.macd_histogram
  let bb_score := score_bollinger_bands row.close row.bollinger_upper_20
    row.bollinger_middle_20 row.bollinger_lower_20
  let velocity_score := velocityOf df_symbol
  let momentum_score := rsi_score * (30 / 100) + macd_score * (30 / 100) +
    bb_score * (20 / 100) + velocity_score * (20 / 100)
  max 0 (min 100 momentum_score)

/-- `MomentumScorer.add_momentum_scores` (momentum_scorer.py) for one symbol:
every row is scored with `df_symbol` equal to the whole per-symbol frame. -/
def add_momentum_scores (rows : List (Row α)) : List α :=
  rows.map fun row => calculate_momentum_score row (some (rows.map Row.close))

/-- `MomentumScorer.get_signal` (momentum_scorer.py). -/
def get_signal (score : α) : String :=
  if 80 ≤ score then "STRONG BUY"
  else if 60 ≤ score then "BUY"
  else if 40 ≤ score then "NEUTRAL"
  else if 20 ≤ score then "SELL"
  else "STRONG SELL"

end Scorer

section Ewm

variable {α : Type} [LinearOrderedField α]

/-- The pandas smoothing factor for a span, `alpha = 2 / (span + 1)`. -/
def ewmAlpha (span : ℕ) : α := 2 / ((span : α) + 1)

/-- One step of pandas `ewm(span=s, adjust=False).mean()` with the default
`ignore_na=False` (window/aggregations ewma): the state is the weighted
average so far (`nan` before the first valid observation) and the
accumulated old weight.  On a valid previous average the old weight decays
by `1 - a`; a `nan` observation leaves the average unchanged; a valid
observation merges with weight `a` (skipped when equal, as in the source)
and resets the old weight to 1. -/
def ewmStep (a : α) (s : PF α × α) (cur : PF α) : PF α × α :=
  let wavg := s.1
  let oldWt := s.2
  if wavg = PF.nan then
    if cur = PF.nan then (PF.nan, oldWt) else (cur, oldWt)
  else
    let oldWt2 := oldWt * (1 - a)
    if cur = PF.nan then (wavg, oldWt2)
    else
      (if wavg = cur then wavg
       else PF.div (PF.add (PF.mul (PF.num oldWt2) wavg) (PF.mul (PF.num a) cur))
              (PF.num (oldWt2 + a)), 1)

/-- `Series.ewm(span=span, adjust=False).mean()`: the per-position weighted
averages of the `ewmStep` scan. -/
def ewmMean (span : ℕ) (xs : List (PF α)) : List (PF α) :=
  ((xs.scanl (ewmStep (ewmAlpha span)) (PF.nan, 1)).drop 1).map Prod.fst

/-- `TechnicalIndicators.calculate_macd` (indicators.py):

    ema_fast = prices.ewm(span=fast, adjust=False).mean()
    ema_slow = prices.ewm(span=slow, adjust=False).mean()
    macd_line = ema_fast - ema_slow
    signal_line = macd_line.ewm(span=signal, adjust=False).mean()
    histogram = macd_line - signal_line
    return macd_line.fillna(0), signal_line.fillna(0), histogram.fillna(0) -/
def calculate_macd (prices : List (PF α)) (fast : ℕ := 12) (slow : ℕ := 26)
    (signal : ℕ := 9) : List (PF α) × List (PF α) × List (PF α) :=
  let ema_fast := ewmMean fast prices
  let ema_slow := ewmMean slow prices
  let macd_line := List.zipWith PF.sub ema_fast ema_slow
  let signal_line := ewmMean signal macd_line
  let histogram := List.zipWith PF.sub macd_line signal_line
  (fillna 0 macd_line, fillna 0 signal_line, fillna 0 histogram)

/-- The tail of the spec-side EMA recurrence: given the previous EMA value,
`e[t] = a*x[t] + (1-a)*e[t-1]` along the rest of the series. -/
def emaSpecFrom (a : α) (prev : α) : List α → List α
  | [] => []
  | x :: rest => (a * x + (1 - a) * prev) :: emaSpecFrom a (a * x + (1 - a) * prev) rest

/-- Spec-side reference series for C5, written from the spec words rather
than the source: the non-adjusted EMA with smoothing factor
`a = 2/(span+1)`, recurrence `ema[t] = a*close[t] + (1-a)*ema[t-1]`,
seeded with `ema[0] = close[0]`; compared against `ewmMean` in the claim. -/
def emaSpec (span : ℕ) (xs : List α) : List α :=
  match xs with
  | [] => []
  | x :: rest => x :: emaSpecFrom (ewmAlpha span) x rest

end Ewm

section Bollinger

variable {α : Type} [LinearOrderedField α]

/-- `Series.fillna(other)` with a series argument: positions whose value is
`nan` are filled from the aligned position of `other`. -/
def fillnaWith (other l : List (PF α)) : List (PF α) :=
  List.zipWith (fun p v => if v = PF.nan then p else v) other l

/-- The plain field values of a window, or failure when any entry is `nan`
or an infinity. -/
def allFinite : List (PF α) → Option (List α)
  | [] => some []
  | PF.num a :: rest => (allFinite rest).map (a :: ·)
  | _ => none

/-- Mean of a plain window. -/
def windowMean (l : List α) : α := l.sum / l.length

/-- The sample variance (pandas default `ddof=1`) of a plain window:
`Σ (x - mean)² / (n - 1)`. -/
def sampleVar (l : List α) : α :=
  (l.map fun x => (x - windowMean l) ^ 2).sum / ((l.length : α) - 1)

/-- `Series.rolling(window=w).std()` (default `ddof=1`): `nan` until a full
window of finite values exists, the square root of the sample variance
otherwise.  The square root is passed explicitly, as the one operation that
leaves the field; a full window containing `nan` or an infinity yields
`nan`, as the float computation does. -/
def rollingStd (sqrt : α → α) (w : ℕ) (xs : List (PF α)) : List (PF α) :=
  (List.range xs.length).map fun t =>
    if t + 1 < w then PF.nan
    else
      match allFinite ((xs.drop (t + 1 - w)).take w) with
      | some l => PF.num (sqrt (sampleVar l))
      | none => PF.nan

/-- `TechnicalIndicators.calculate_bollinger_bands` (indicators.py):

    middle_band = prices.rolling(window=period).mean()
    std = prices.rolling(window=period).std()
    upper_band = middle_band + (std * std_dev)
    lower_band = middle_band - (std * std_dev)
    return upper_band.fillna(prices), middle_band.fillna(prices),
           lower_band.fillna(prices) -/
def calculate_bollinger_bands (sqrt : α → α) (prices : List (PF α)) (period : ℕ := 20)
    (std_dev : α := 2) : List (PF α) × List (PF α) × List (PF α) :=
  let middle_band := rollingMean period prices
  let std := rollingStd sqrt period prices
  let upper_band := List.zipWith (fun m s => PF.add m (PF.mul s (PF.num std_dev)))
    middle_band std
  let lower_band := List.zipWith (fun m s => PF.sub m (PF.mul s (PF.num std_dev)))
    middle_band std
  (fillnaWith prices upper_band, fillnaWith prices middle_band, fillnaWith prices lower_band)

end Bollinger

section Shapes

variable {α : Type} [LinearOrderedField α]

/-- "Nan-or-finite": the shape every series value keeps when the input never
holds an infinity. -/
def NN (v : PF α) : Prop := v = PF.nan ∨ ∃ q, v = PF.num q

end Shapes

section SeriesLemmas

variable {α : Type} [LinearOrderedField α]

lemma whereKeep_length (cond : PF α → Bool) (o : α) (l : List (PF α)) :
    (whereKeep cond o l).length = l.length := by
  simp [whereKeep]

lemma diff_length (xs : List (PF α)) : (diff xs).length = xs.length := by
  cases xs with
  | nil => rfl
  | cons x xs => simp [diff]

lemma rollingMean_length (w : ℕ) (xs : List (PF α)) :
    (rollingMean w xs).length = xs.length := by
  simp [rollingMean]

lemma fillna_length (d : α) (l : List (PF α)) : (fillna d l).length = l.length := by
  simp [fillna]

lemma rsiAvgGain_length (prices : List (PF α)) (p : ℕ) :
    (rsiAvgGain prices p).length = prices.length := by
  simp [rsiAvgGain, rollingMean_length, whereKeep_length, diff_length]

lemma rsiAvgLoss_length (prices : List (PF α)) (p : ℕ) :
    (rsiAvgLoss prices p).length = prices.length := by
  simp [rsiAvgLoss, rollingMean_length, whereKeep_length, diff_length]

lemma calculate_rsi_length (prices : List (PF α)) (p : ℕ) :
    (calculate_rsi prices p).length = prices.length := by
  simp [calculate_rsi, fillna_length, rollingMean_length, whereKeep_length, diff_length]

lemma calculate_rsi_getElem (prices : List (PF α)) (p t : ℕ) (ht : t < prices.length) :
    (calculate_rsi prices p)[t]? = some (
      if rsiOfRs (PF.div ((rsiAvgGain prices p).getD t PF.nan)
          ((rsiAvgLoss prices p).getD t PF.nan)) = PF.nan
      then PF.num 50
      else rsiOfRs (PF.div ((rsiAvgGain prices p).getD t PF.nan)
          ((rsiAvgLoss prices p).getD t PF.nan))) := by
  have hg : t < (rsiAvgGain prices p).length := by rw [rsiAvgGain_length]; exact ht
  have hl : t < (rsiAvgLoss prices p).length := by rw [rsiAvgLoss_length]; exact ht
  have hg2 : (rsiAvgGain prices p)[t]? = some ((rsiAvgGain prices p).getD t PF.nan) := by
    rw [List.getD_eq_getElem?_getD, List.getElem?_eq_getElem hg]; rfl
  have hl2 : (rsiAvgLoss prices p)[t]? = some ((rsiAvgLoss prices p).getD t PF.nan) := by
    rw [List.getD_eq_getElem?_getD, List.getElem?_eq_getElem hl]; rfl
  show (fillna 50 ((List.zipWith PF.div (rsiAvgGain prices p) (rsiAvgLoss prices p)).map
      (fun r => rsiOfRs r)))[t]? = _
  rw [fillna, List.getElem?_map, List.getElem?_map, List.getElem?_zipWith, hg2, hl2]
  rfl

end SeriesLemmas

section RsiShape

variable {α : Type} [LinearOrderedField α]

lemma zipWith_sub_num_shape :
    ∀ (l₁ l₂ : List α), ∀ v ∈ List.zipWith PF.sub (l₁.map PF.num) (l₂.map PF.num),
      ∃ q, v = PF.num q
  | [], _, v, hv => by simp at hv
  | _ :: _, [], v, hv => by simp at hv
  | a :: l₁, b :: l₂, v, hv => by
    rcases List.mem_cons.mp hv with h | h
    · exact ⟨a + -b, by rw [h]; rfl⟩
    · exact zipWith_sub_num_shape l₁ l₂ v h

lemma diff_map_num_shape (xs : List α) :
    ∀ v ∈ diff (xs.map PF.num), v = PF.nan ∨ ∃ q, v = PF.num q := by
  cases xs with
  | nil => simp [diff]
  | cons x xs =>
    intro v hv
    have hd : diff ((x :: xs).map PF.num)
        = PF.nan :: List.zipWith PF.sub (xs.map PF.num) ((x :: xs).map PF.num) := by
      simp [diff]
    rw [hd] at hv
    rcases List.mem_cons.mp hv with h | h
    · exact Or.inl h
    · exact Or.inr (zipWith_sub_num_shape xs (x :: xs) v h)

lemma rsiGainList_shape (xs : List α) :
    ∀ v ∈ whereKeep (fun d => PF.lt (PF.num 0) d) 0 (diff (xs.map PF.num)),
      ∃ q, v = PF.num q ∧ 0 ≤ q := by
  intro v hv
  rw [whereKeep, List.mem_map] at hv
  obtain ⟨d, hd, rfl⟩ := hv
  rcases diff_map_num_shape xs d hd with rfl | ⟨q, rfl⟩
  · exact ⟨0, rfl, le_refl 0⟩
  · by_cases h : (0 : α) < q
    · exact ⟨q, by simp [PF.lt, h], le_of_lt h⟩
    · exact ⟨0, by simp [PF.lt, h], le_refl 0⟩

lemma rsiLossList_shape (xs : List α) :
    ∀ v ∈ (whereKeep (fun d => PF.lt d (PF.num 0)) 0 (diff (xs.map PF.num))).map PF.neg,
      ∃ q, v = PF.num q ∧ 0 ≤ q := by
  intro v hv
  rw [List.mem_map] at hv
  obtain ⟨w, hw, rfl⟩ := hv
  rw [whereKeep, List.mem_map] at hw
  obtain ⟨d, hd, rfl⟩ := hw
  rcases diff_map_num_shape xs d hd with rfl | ⟨q, rfl⟩
  · exact ⟨0, by simp [PF.lt, PF.neg], le_refl 0⟩
  · by_cases h : q < (0 : α)
    · exact ⟨-q, by simp [PF.lt, h, PF.neg], by linarith⟩
    · exact ⟨0, by simp [PF.lt, h, PF.neg], le_refl 0⟩

lemma foldl_add_num_nonneg :
    ∀ (l : List (PF α)) (a : α), 0 ≤ a →
      (∀ v ∈ l, ∃ q, v = PF.num q ∧ 0 ≤ q) →
      ∃ s, l.foldl PF.add (PF.num a) = PF.num s ∧ 0 ≤ s
  | [], a, ha, _ => ⟨a, rfl, ha⟩
  | v :: l, a, ha, h => by
    obtain ⟨q, rfl, hq⟩ := h v (List.mem_cons_self v l)
    have ih := foldl_add_num_nonneg l (a + q) (by linarith)
      (fun w hw => h w (List.mem_cons_of_mem _ hw))
    simpa [PF.add] using ih

lemma meanPF_shape (l : List (PF α)) (hne : l ≠ [])
    (h : ∀ v ∈ l, ∃ q, v = PF.num q ∧ 0 ≤ q) :
    ∃ q, meanPF l = PF.num q ∧ 0 ≤ q := by
  obtain ⟨s, hs, hs0⟩ := foldl_add_num_nonneg l 0 le_rfl h
  have hlen : (0 : α) < (l.length : α) := by
    exact_mod_cast List.length_pos.mpr hne
  refine ⟨s / l.length, ?_, by positivity⟩
  rw [meanPF, hs, PF.div]
  simp [ne_of_gt hlen]

lemma rollingMean_getD (w : ℕ) (l : List (PF α)) (t : ℕ) (ht : t < l.length) :
    (rollingMean w l).getD t PF.nan =
      if t + 1 < w then PF.nan else meanPF ((l.drop (t + 1 - w)).take w) := by
  simp [rollingMean, List.getD_eq_getElem?_getD, List.getElem?_map, List.getElem?_range, ht]

lemma window_ne_nil {β : Type} (l : List β) (w t : ℕ) (hw : 0 < w) (ht : t < l.length) :
    (l.drop (t + 1 - w)).take w ≠ [] := by
  have h1 : (l.drop (t + 1 - w)).length = l.length - (t + 1 - w) := List.length_drop _ _
  have h2 : ((l.drop (t + 1 - w)).take w).length = min w (l.length - (t + 1 - w)) := by
    rw [List.length_take, h1]
  apply List.ne_nil_of_length_pos
  rw [h2]
  omega

lemma rollingMean_entry_shape (w : ℕ) (l : List (PF α)) (t : ℕ) (hw : 0 < w)
    (ht : t < l.length) (h : ∀ v ∈ l, ∃ q, v = PF.num q ∧ 0 ≤ q) :
    (rollingMean w l).getD t PF.nan = PF.nan ∨
      ∃ q, (rollingMean w l).getD t PF.nan = PF.num q ∧ 0 ≤ q := by
  rw [rollingMean_getD w l t ht]
  split
  · exact Or.inl rfl
  · refine Or.inr (meanPF_shape _ (window_ne_nil l w t hw ht) ?_)
    intro v hv
    exact h v (List.drop_subset _ l (List.take_subset _ _ hv))

lemma rsiOfRs_fillna_range (g l : PF α)
    (hg : g = PF.nan ∨ ∃ q, g = PF.num q ∧ 0 ≤ q)
    (hl : l = PF.nan ∨ ∃ q, l = PF.num q ∧ 0 ≤ q) :
    ∃ q, (if rsiOfRs (PF.div g l) = PF.nan then PF.num 50 else rsiOfRs (PF.div g l)) = PF.num q
      ∧ 0 ≤ q ∧ q ≤ 100 := by
  rcases hg with rfl | ⟨a, rfl, ha⟩
  · rcases hl with rfl | ⟨b, rfl, _⟩ <;>
      exact ⟨50, by simp [rsiOfRs, PF.div, PF.add, PF.sub, PF.neg], by norm_num⟩
  · rcases hl with rfl | ⟨b, rfl, hb⟩
    · exact ⟨50, by simp [rsiOfRs, PF.div, PF.add, PF.sub, PF.neg], by norm_num⟩
    · by_cases hb0 : b = 0
      · subst hb0
        by_cases ha0 : a = 0
        · subst ha0
          exact ⟨50, by simp [rsiOfRs, PF.div, PF.add, PF.sub, PF.neg], by norm_num⟩
        · have ha' : 0 < a := lt_of_le_of_ne ha (Ne.symm ha0)
          refine ⟨100, ?_, by norm_num⟩
          have hdiv : PF.div (PF.num a) (PF.num (0 : α)) = PF.inf := by
            simp [PF.div, ha0, ha']
          rw [hdiv]
          have : rsiOfRs (PF.inf : PF α) = PF.num (100 + -0) := by
            simp [rsiOfRs, PF.div, PF.add, PF.sub, PF.neg]
          rw [this]
          norm_num
          simp
      · have hb' : 0 < b := lt_of_le_of_ne hb (Ne.symm hb0)
        have hdiv : PF.div (PF.num a) (PF.num b) = PF.num (a / b) := by
          simp [PF.div, hb0]
        have hr : 0 ≤ a / b := by positivity
        have h1r : (0 : α) < 1 + a / b := by linarith
        have hval : rsiOfRs (PF.num (a / b)) = PF.num (100 + -(100 / (1 + a / b))) := by
          simp [rsiOfRs, PF.add, PF.div, PF.sub, PF.neg, ne_of_gt h1r]
        refine ⟨100 + -(100 / (1 + a / b)), ?_, ?_, ?_⟩
        · rw [hdiv, hval]; simp
        · have : 100 / (1 + a / b) ≤ 100 := by
            apply div_le_self (by norm_num) (by linarith)
          linarith
        · have : 0 ≤ 100 / (1 + a / b) := by positivity
          linarith

lemma rsiOfRs_nan : rsiOfRs (PF.nan : PF α) = PF.nan := rfl

end RsiShape

section ClaimsRsi

variable {α : Type} [LinearOrderedField α]

/-- C1 (amended): at every full-window bar where the rolling average loss is
zero, `calculate_rsi` outputs 50 when the rolling average gain is also zero
and 100 when the average gain is positive; in neither case does it propagate
infinity or NaN. -/
theorem c1_rsi_zero_avg_loss (xs : List α) (t : ℕ) (ht : t < xs.length)
    (hloss : (rsiAvgLoss (xs.map PF.num) 14).getD t PF.nan = PF.num 0) :
    (calculate_rsi (xs.map PF.num) 14).getD t PF.nan =
      (if (rsiAvgGain (xs.map PF.num) 14).getD t PF.nan = PF.num 0
       then PF.num 50 else PF.num 100) := by
  have hlen : (xs.map PF.num).length = xs.length := by simp
  have ht' : t < (xs.map PF.num).length := by rw [hlen]; exact ht
  set G := whereKeep (fun d => PF.lt (PF.num 0) d) 0 (diff (xs.map PF.num)) with hG
  set L := (whereKeep (fun d => PF.lt d (PF.num 0)) 0 (diff (xs.map PF.num))).map PF.neg with hL
  have htG : t < G.length := by
    rw [hG, whereKeep_length, diff_length, hlen]; exact ht
  have htL : t < L.length := by
    rw [hL, List.length_map, whereKeep_length, diff_length, hlen]; exact ht
  have hlossD : (rsiAvgLoss (xs.map PF.num) 14).getD t PF.nan
      = if t + 1 < 14 then PF.nan else meanPF ((L.drop (t + 1 - 14)).take 14) := by
    rw [rsiAvgLoss, ← hL]; exact rollingMean_getD 14 L t htL
  have hwin : ¬ t + 1 < 14 := by
    intro hcon
    rw [hlossD, if_pos hcon] at hloss
    exact PF.noConfusion hloss
  have hgainD : (rsiAvgGain (xs.map PF.num) 14).getD t PF.nan
      = meanPF ((G.drop (t + 1 - 14)).take 14) := by
    rw [rsiAvgGain, ← hG, rollingMean_getD 14 G t htG, if_neg hwin]
  obtain ⟨qg, hqg, hqg0⟩ := meanPF_shape ((G.drop (t + 1 - 14)).take 14)
    (window_ne_nil G 14 t (by norm_num) htG)
    (fun v hv => rsiGainList_shape xs v
      (List.drop_subset _ _ (List.take_subset _ _ hv)))
  have hrsiD : (calculate_rsi (xs.map PF.num) 14).getD t PF.nan =
      (if rsiOfRs (PF.div ((rsiAvgGain (xs.map PF.num) 14).getD t PF.nan)
          ((rsiAvgLoss (xs.map PF.num) 14).getD t PF.nan)) = PF.nan
       then PF.num 50
       else rsiOfRs (PF.div ((rsiAvgGain (xs.map PF.num) 14).getD t PF.nan)
          ((rsiAvgLoss (xs.map PF.num) 14).getD t PF.nan))) := by
    rw [List.getD_eq_getElem?_getD, calculate_rsi_getElem _ _ _ ht']
    rfl
  rw [hrsiD, hgainD, hqg, hloss]
  by_cases hq0 : qg = 0
  · subst hq0
    have hdiv : PF.div (PF.num (0 : α)) (PF.num 0) = PF.nan := by simp [PF.div]
    rw [hdiv, rsiOfRs_nan, if_pos rfl, if_pos rfl]
  · have hq' : 0 < qg := lt_of_le_of_ne hqg0 (Ne.symm hq0)
    have hdiv : PF.div (PF.num qg) (PF.num (0 : α)) = PF.inf := by
      simp [PF.div, hq0, hq']
    have hval : rsiOfRs (PF.inf : PF α) = PF.num (100 + -0) := by
      simp [rsiOfRs, PF.div, PF.add, PF.sub, PF.neg]
    rw [hdiv, hval, if_neg (by simp), if_neg (by simp [hq0])]
    norm_num

/-- Witness for C1 at a concrete flat price series of length 15. -/
theorem c1_witness :
    (13 < ([1, 1, 1, 1, 1, 1, 1, 1, 1, 1, 1, 1, 1, 1, 1] : List ℚ).length ∧
      (rsiAvgLoss (([1, 1, 1, 1, 1, 1, 1, 1, 1, 1, 1, 1, 1, 1, 1] : List ℚ).map PF.num) 14).getD
        13 PF.nan = PF.num 0) ∧
    (calculate_rsi (([1, 1, 1, 1, 1, 1, 1, 1, 1, 1, 1, 1, 1, 1, 1] : List ℚ).map PF.num) 14).getD
        13 PF.nan =
      (if (rsiAvgGain (([1, 1, 1, 1, 1, 1, 1, 1, 1, 1, 1, 1, 1, 1, 1] : List ℚ).map PF.num)
          14).getD 13 PF.nan = PF.num 0
       then PF.num 50 else PF.num 100) :=
  ⟨⟨by norm_num, by
      norm_num [rsiAvgLoss, rollingMean, whereKeep, diff, meanPF,
        PF.lt, PF.sub, PF.add, PF.neg, PF.div, List.getD_eq_getElem?_getD]⟩,
    c1_rsi_zero_avg_loss ([1, 1, 1, 1, 1, 1, 1, 1, 1, 1, 1, 1, 1, 1, 1] : List ℚ) 13
      (by norm_num)
      (by norm_num [rsiAvgLoss, rollingMean, whereKeep, diff, meanPF,
        PF.lt, PF.sub, PF.add, PF.neg, PF.div, List.getD_eq_getElem?_getD])⟩

/-- C1 counterexample: on the strictly increasing close series 1,2,...,15 the
bar at position 13 has a full window with rolling average loss zero, yet
`calculate_rsi` outputs 100 there, not the neutral 50 the claim requires. -/
theorem c1_counterexample :
    ((rsiAvgLoss (([1, 2, 3, 4, 5, 6, 7, 8, 9, 10, 11, 12, 13, 14, 15] : List ℚ).map PF.num)
        14).getD 13 PF.nan = PF.num 0) ∧
    ((calculate_rsi (([1, 2, 3, 4, 5, 6, 7, 8, 9, 10, 11, 12, 13, 14, 15] : List ℚ).map PF.num)
        14).getD 13 PF.nan = PF.num 100) ∧
    ((calculate_rsi (([1, 2, 3, 4, 5, 6, 7, 8, 9, 10, 11, 12, 13, 14, 15] : List ℚ).map PF.num)
        14).getD 13 PF.nan ≠ PF.num 50) := by
  refine ⟨?_, ?_, ?_⟩ <;>
    norm_num [calculate_rsi, rsiAvgLoss, rollingMean, whereKeep, diff, meanPF, fillna, rsiOfRs,
      PF.lt, PF.sub, PF.add, PF.neg, PF.div, List.getD_eq_getElem?_getD] <;>
    simp

/-- C2 (amended): every value `calculate_rsi` returns lies in `[0, 100]`, and
the first `period - 1` (= 13) bar positions are exactly 50; the bar at
position `period - 1` already carries a computed value because the undefined
first price difference is replaced by a zero gain and loss before averaging. -/
theorem c2_rsi_range_warmup (xs : List α) (t : ℕ) (ht : t < xs.length) :
    (∃ q, (calculate_rsi (xs.map PF.num) 14).getD t PF.nan = PF.num q ∧ 0 ≤ q ∧ q ≤ 100) ∧
    (t < 13 → (calculate_rsi (xs.map PF.num) 14).getD t PF.nan = PF.num 50) := by
  have hlen : (xs.map PF.num).length = xs.length := by simp
  have ht' : t < (xs.map PF.num).length := by rw [hlen]; exact ht
  set G := whereKeep (fun d => PF.lt (PF.num 0) d) 0 (diff (xs.map PF.num)) with hG
  set L := (whereKeep (fun d => PF.lt d (PF.num 0)) 0 (diff (xs.map PF.num))).map PF.neg with hL
  have htG : t < G.length := by
    rw [hG, whereKeep_length, diff_length, hlen]; exact ht
  have htL : t < L.length := by
    rw [hL, List.length_map, whereKeep_length, diff_length, hlen]; exact ht
  have hgainShape := rollingMean_entry_shape 14 G t (by norm_num) htG
    (fun v hv => rsiGainList_shape xs v (by rw [hG] at hv; exact hv))
  have hlossShape := rollingMean_entry_shape 14 L t (by norm_num) htL
    (fun v hv => rsiLossList_shape xs v (by rw [hL] at hv; exact hv))
  have hrsiD : (calculate_rsi (xs.map PF.num) 14).getD t PF.nan =
      (if rsiOfRs (PF.div ((rsiAvgGain (xs.map PF.num) 14).getD t PF.nan)
          ((rsiAvgLoss (xs.map PF.num) 14).getD t PF.nan)) = PF.nan
       then PF.num 50
       else rsiOfRs (PF.div ((rsiAvgGain (xs.map PF.num) 14).getD t PF.nan)
          ((rsiAvgLoss (xs.map PF.num) 14).getD t PF.nan))) := by
    rw [List.getD_eq_getElem?_getD, calculate_rsi_getElem _ _ _ ht']
    rfl
  constructor
  · obtain ⟨q, hq, hq0, hq100⟩ := rsiOfRs_fillna_range
      ((rsiAvgGain (xs.map PF.num) 14).getD t PF.nan)
      ((rsiAvgLoss (xs.map PF.num) 14).getD t PF.nan)
      (by rw [rsiAvgGain, ← hG]; exact hgainShape)
      (by rw [rsiAvgLoss, ← hL]; exact hlossShape)
    exact ⟨q, by rw [hrsiD]; exact hq, hq0, hq100⟩
  · intro ht13
    have hwin : t + 1 < 14 := by omega
    have hgainNan : (rsiAvgGain (xs.map PF.num) 14).getD t PF.nan = PF.nan := by
      rw [rsiAvgGain, ← hG, rollingMean_getD 14 G t htG, if_pos hwin]
    rw [hrsiD, hgainNan]
    have : PF.div (PF.nan : PF α) ((rsiAvgLoss (xs.map PF.num) 14).getD t PF.nan)
        = PF.nan := by
      cases (rsiAvgLoss (xs.map PF.num) 14).getD t PF.nan <;> rfl
    rw [this, rsiOfRs_nan, if_pos rfl]

/-- Witness for C2 at a concrete two-bar price series. -/
theorem c2_witness :
    (∃ q, (calculate_rsi (([3, 7] : List ℚ).map PF.num) 14).getD 0 PF.nan = PF.num q ∧
      0 ≤ q ∧ q ≤ 100) ∧
    (0 < 13 → (calculate_rsi (([3, 7] : List ℚ).map PF.num) 14).getD 0 PF.nan = PF.num 50) :=
  c2_rsi_range_warmup ([3, 7] : List ℚ) 0 (by norm_num)

/-- C2 counterexample: position 13 is among the first `period` (14) bar
positions, yet on the close series 1,2,...,15 `calculate_rsi` returns 100
there rather than the claimed 50. -/
theorem c2_counterexample :
    13 < 14 ∧
    ((calculate_rsi (([1, 2, 3, 4, 5, 6, 7, 8, 9, 10, 11, 12, 13, 14, 15] : List ℚ).map PF.num)
        14).getD 13 PF.nan ≠ PF.num 50) ∧
    ((calculate_rsi (([1, 2, 3, 4, 5, 6, 7, 8, 9, 10, 11, 12, 13, 14, 15] : List ℚ).map PF.num)
        14).getD 13 PF.nan = PF.num 100) := by
  refine ⟨by norm_num, ?_, ?_⟩ <;>
    norm_num [calculate_rsi, rollingMean, whereKeep, diff, meanPF, fillna, rsiOfRs,
      PF.lt, PF.sub, PF.add, PF.neg, PF.div, List.getD_eq_getElem?_getD] <;>
    simp

end ClaimsRsi

section ClaimsScorer

variable {α : Type} [LinearOrderedField α]

/-- C4: `score_macd` returns `min(100, 50 + min(|h|,2)/2*50)` for a positive
histogram, a value in (50, 100], and `max(0, 50 - min(|h|,2)/2*50)` otherwise,
a value in [0, 50]; the bearish branch of the source, which omits the
`min(|h|,2)` clamp, returns exactly the same values. -/
theorem c4_score_macd (m s h : α) :
    (score_macd m s h =
      if 0 < h then min 100 (50 + min |h| 2 / 2 * 50)
      else max 0 (50 - min |h| 2 / 2 * 50)) ∧
    (0 < h → 50 < score_macd m s h ∧ score_macd m s h ≤ 100) ∧
    (¬ 0 < h → 0 ≤ score_macd m s h ∧ score_macd m s h ≤ 50) := by
  have habs : (0 : α) ≤ |h| := abs_nonneg h
  have hmax : max |h| 0 = |h| := max_eq_left habs
  refine ⟨?_, ?_, ?_⟩
  · rw [score_macd, hmax]
    by_cases hpos : 0 < h
    · rw [if_pos hpos, if_pos hpos]
    · rw [if_neg hpos, if_neg hpos]
      by_cases h2 : |h| ≤ 2
      · rw [min_eq_left h2]
      · push_neg at h2
        rw [min_eq_right (le_of_lt h2)]
        have e1 : max 0 (50 - |h| / 2 * 50) = (0 : α) := by
          apply max_eq_left
          nlinarith
        have e2 : max 0 (50 - 2 / 2 * 50) = (0 : α) := by
          apply max_eq_left
          norm_num
        rw [e1, e2]
  · intro hpos
    rw [score_macd, if_pos hpos]
    have h0 : 0 < |h| := abs_pos.mpr (ne_of_gt hpos)
    have hm0 : 0 < min |h| 2 := lt_min h0 (by norm_num)
    have hm2 : min |h| 2 ≤ 2 := min_le_right _ _
    constructor
    · apply lt_min (by norm_num)
      nlinarith
    · exact min_le_left _ _
  · intro hpos
    rw [score_macd, if_neg hpos, hmax]
    refine ⟨le_max_left _ _, ?_⟩
    apply max_le (by norm_num)
    nlinarith [abs_nonneg h]

/-- Witness for C4 at concrete histogram values. -/
theorem c4_witness :
    (50 < score_macd (0 : ℚ) 0 1 ∧ score_macd (0 : ℚ) 0 1 ≤ 100) ∧
    (0 ≤ score_macd (0 : ℚ) 0 (-3) ∧ score_macd (0 : ℚ) 0 (-3) ≤ 50) :=
  ⟨(c4_score_macd (0 : ℚ) 0 1).2.1 (by norm_num),
   (c4_score_macd (0 : ℚ) 0 (-3)).2.2 (by norm_num)⟩

/-- C3: `calculate_momentum_score` is the fixed-weight combination
`0.30*rsi_score + 0.30*macd_score + 0.20*bb_score + 0.20*velocity_score`
clamped to [0, 100]; it always lands in [0, 100], is invariant under the
order in which the four weighted terms are summed, and the zero-division
edge cases (`bb_upper == bb_lower`, `past close == 0`) yield the neutral
component score 50. -/
theorem c3_momentum_score (row : Row α) (df : Option (List α)) :
    (calculate_momentum_score row df = max 0 (min 100
      (score_rsi row.rsi_14 * (30 / 100) +
       score_macd row.macd_12_26_9 row.macd_signal_9 row.macd_histogram * (30 / 100) +
       score_bollinger_bands row.close row.bollinger_upper_20 row.bollinger_middle_20
         row.bollinger_lower_20 * (20 / 100) +
       velocityOf df * (20 / 100)))) ∧
    (0 ≤ calculate_momentum_score row df ∧ calculate_momentum_score row df ≤ 100) ∧
    (∀ l : List α, l.Perm
        [score_rsi row.rsi_14 * (30 / 100),
         score_macd row.macd_12_26_9 row.macd_signal_9 row.macd_histogram * (30 / 100),
         score_bollinger_bands row.close row.bollinger_upper_20 row.bollinger_middle_20
           row.bollinger_lower_20 * (20 / 100),
         velocityOf df * (20 / 100)] →
      max 0 (min 100 l.sum) = calculate_momentum_score row df) ∧
    (∀ c u mid lo : α, u = lo → score_bollinger_bands c u mid lo = 50) ∧
    (∀ closes : List α, ¬ closes.length < 6 →
      closes.getD (closes.length - 6) 0 = 0 → score_price_velocity closes 5 = 50) := by
  refine ⟨rfl, ⟨le_max_left _ _, ?_⟩, ?_, ?_, ?_⟩
  · exact max_le (by norm_num) (min_le_left _ _)
  · intro l hl
    rw [List.Perm.sum_eq hl]
    show max 0 (min 100 _) = max 0 (min 100 _)
    norm_num [calculate_momentum_score]
    ring_nf
  · intro c u mid lo hul
    rw [score_bollinger_bands, if_pos hul]
  · intro closes hlen hpast
    rw [score_price_velocity, if_neg hlen]
    show (if closes.getD (closes.length - 5 - 1) 0 = 0 then _ else _) = (50 : α)
    have : closes.length - 5 - 1 = closes.length - 6 := by omega
    rw [this, if_pos hpast]

/-- Witness for C3: the order-of-summation invariance applied to a reversed
term list, and the edge cases at concrete inputs. -/
theorem c3_witness :
    (max 0 (min 100
      ([score_macd (0 : ℚ) 0 0 * (30 / 100),
        score_rsi (50 : ℚ) * (30 / 100),
        score_bollinger_bands (1 : ℚ) 1 1 1 * (20 / 100),
        velocityOf (none : Option (List ℚ)) * (20 / 100)].sum)) =
      calculate_momentum_score (Row.mk 1 50 0 0 0 1 1 1) (none : Option (List ℚ))) ∧
    score_bollinger_bands (7 : ℚ) 3 4 3 = 50 ∧
    score_price_velocity ([2, 0, 2, 2, 2, 2, 2] : List ℚ) 5 = 50 := by
  refine ⟨?_, ?_, ?_⟩
  · exact (c3_momentum_score (Row.mk 1 50 0 0 0 1 1 1) none).2.2.1 _
      (List.Perm.swap _ _ _)
  · exact (c3_momentum_score (Row.mk 1 50 0 0 0 1 1 1) (none : Option (List ℚ))).2.2.2.1
      7 3 4 3 rfl
  · exact (c3_momentum_score (Row.mk 1 50 0 0 0 1 1 1) (none : Option (List ℚ))).2.2.2.2
      ([2, 0, 2, 2, 2, 2, 2] : List ℚ) (by norm_num) (by norm_num [List.getD])

/-- C7: `get_signal` maps scores by non-overlapping thresholds with closed
lower bounds; exactly one signal is produced for every input. -/
theorem c7_get_signal (s : α) :
    (get_signal s = "STRONG BUY" ↔ 80 ≤ s) ∧
    (get_signal s = "BUY" ↔ 60 ≤ s ∧ s < 80) ∧
    (get_signal s = "NEUTRAL" ↔ 40 ≤ s ∧ s < 60) ∧
    (get_signal s = "SELL" ↔ 20 ≤ s ∧ s < 40) ∧
    (get_signal s = "STRONG SELL" ↔ s < 20) := by
  have d1 : ("STRONG BUY" : String) ≠ "BUY" := by decide
  have d2 : ("STRONG BUY" : String) ≠ "NEUTRAL" := by decide
  have d3 : ("STRONG BUY" : String) ≠ "SELL" := by decide
  have d4 : ("STRONG BUY" : String) ≠ "STRONG SELL" := by decide
  have d5 : ("BUY" : String) ≠ "NEUTRAL" := by decide
  have d6 : ("BUY" : String) ≠ "SELL" := by decide
  have d7 : ("BUY" : String) ≠ "STRONG SELL" := by decide
  have d8 : ("NEUTRAL" : String) ≠ "SELL" := by decide
  have d9 : ("NEUTRAL" : String) ≠ "STRONG SELL" := by decide
  have d10 : ("SELL" : String) ≠ "STRONG SELL" := by decide
  rw [get_signal]
  split_ifs with h1 h2 h3 h4 <;>
    refine ⟨?_, ?_, ?_, ?_, ?_⟩ <;>
    constructor <;>
    intro hx <;>
    first
      | rfl
      | (exact h1)
      | (exact absurd hx.symm (by assumption))
      | (exact absurd hx (by assumption))
      | (constructor <;> linarith)
      | linarith

/-- Witness for C7 at concrete scores in three different bands. -/
theorem c7_witness :
    get_signal (85 : ℚ) = "STRONG BUY" ∧ get_signal (45 : ℚ) = "NEUTRAL" ∧
    get_signal (10 : ℚ) = "STRONG SELL" :=
  ⟨(c7_get_signal (85 : ℚ)).1.mpr (by norm_num),
   (c7_get_signal (45 : ℚ)).2.2.1.mpr (by norm_num),
   (c7_get_signal (10 : ℚ)).2.2.2.2.mpr (by norm_num)⟩

end ClaimsScorer

section EwmLemmas

variable {α : Type} [LinearOrderedField α]

lemma ewmStep_num (a prev x : α) :
    ewmStep a (PF.num prev, 1) (PF.num x) = (PF.num (a * x + (1 - a) * prev), 1) := by
  rw [ewmStep]
  simp only []
  by_cases hpx : prev = x
  · subst hpx
    simp only [if_neg (by simp : (PF.num prev : PF α) ≠ PF.nan),
      if_neg (by simp : (PF.num prev : PF α) ≠ PF.nan), if_pos rfl]
    have : a * prev + (1 - a) * prev = prev := by ring
    rw [this]
    simp
  · have hne : (PF.num prev : PF α) ≠ PF.num x := by simp [hpx]
    simp only [if_neg (by simp : (PF.num prev : PF α) ≠ PF.nan),
      if_neg (by simp : (PF.num x : PF α) ≠ PF.nan), if_neg hne]
    have hmul1 : PF.mul (PF.num (1 * (1 - a))) (PF.num prev) = PF.num (1 * (1 - a) * prev) := rfl
    have hmul2 : PF.mul (PF.num a) (PF.num x) = PF.num (a * x) := rfl
    have hadd : PF.add (PF.num (1 * (1 - a) * prev)) (PF.num (a * x))
        = PF.num (1 * (1 - a) * prev + a * x) := rfl
    have hden : 1 * (1 - a) + a = (1 : α) := by ring
    rw [hmul1, hmul2, hadd, hden]
    have hdiv : PF.div (PF.num (1 * (1 - a) * prev + a * x)) (PF.num (1 : α))
        = PF.num ((1 * (1 - a) * prev + a * x) / 1) := by
      rw [PF.div]
      norm_num
    rw [hdiv]
    have : (1 * (1 - a) * prev + a * x) / 1 = a * x + (1 - a) * prev := by ring
    rw [this]

lemma ewm_scanl_num (a : α) : ∀ (rest : List α) (prev : α),
    ((rest.map PF.num).scanl (ewmStep a) (PF.num prev, 1)).map Prod.fst
      = PF.num prev :: (emaSpecFrom a prev rest).map PF.num
  | [], prev => rfl
  | x :: rest, prev => by
    rw [List.map_cons, List.scanl_cons, List.singleton_append, List.map_cons,
      ewmStep_num a prev x]
    rw [ewm_scanl_num a rest (a * x + (1 - a) * prev), emaSpecFrom]
    rfl

lemma ewmMean_map_num (span : ℕ) (xs : List α) :
    ewmMean span (xs.map PF.num) = (emaSpec span xs).map PF.num := by
  cases xs with
  | nil => rfl
  | cons x rest =>
    rw [ewmMean, List.map_cons, List.scanl_cons]
    have hstep : ewmStep (ewmAlpha span) (PF.nan, 1) (PF.num x) = (PF.num x, 1) := rfl
    rw [hstep, List.singleton_append, List.drop_one, List.tail_cons,
      ewm_scanl_num (ewmAlpha span) rest x, emaSpec, List.map_cons]

lemma zipWith_sub_map_num : ∀ (l₁ l₂ : List α),
    List.zipWith PF.sub (l₁.map PF.num) (l₂.map PF.num)
      = (List.zipWith (fun u v => u - v) l₁ l₂).map PF.num
  | [], _ => by simp
  | _ :: _, [] => by simp
  | a :: l₁, b :: l₂ => by
    rw [List.map_cons, List.map_cons, List.zipWith_cons_cons, List.zipWith_cons_cons,
      List.map_cons, zipWith_sub_map_num l₁ l₂]
    have : PF.sub (PF.num a) (PF.num b) = PF.num (a - b) := by
      rw [PF.sub, PF.neg, PF.add, sub_eq_add_neg]
    rw [this]

lemma fillna_map_num (d : α) (l : List α) :
    fillna d (l.map PF.num) = l.map PF.num := by
  rw [fillna, List.map_map]
  apply List.map_congr_left
  intro a _
  simp

lemma emaSpecFrom_length (a : α) : ∀ (rest : List α) (prev : α),
    (emaSpecFrom a prev rest).length = rest.length
  | [], _ => rfl
  | x :: rest, prev => by
    rw [emaSpecFrom, List.length_cons, List.length_cons,
      emaSpecFrom_length a rest (a * x + (1 - a) * prev)]

lemma emaSpec_length (span : ℕ) (xs : List α) : (emaSpec span xs).length = xs.length := by
  cases xs with
  | nil => rfl
  | cons x rest =>
    rw [emaSpec, List.length_cons, List.length_cons, emaSpecFrom_length]

lemma emaSpecFrom_getD (a : α) : ∀ (rest : List α) (prev : α) (t : ℕ), t < rest.length →
    (emaSpecFrom a prev rest).getD t 0 =
      a * rest.getD t 0 + (1 - a) * ((prev :: emaSpecFrom a prev rest).getD t 0)
  | [], _, t, ht => by simp at ht
  | x :: rest, prev, 0, _ => by
    rw [emaSpecFrom]
    rfl
  | x :: rest, prev, t + 1, ht => by
    rw [emaSpecFrom]
    have ht' : t < rest.length := by
      rw [List.length_cons] at ht
      omega
    have ih := emaSpecFrom_getD a rest (a * x + (1 - a) * prev) t ht'
    simpa using ih

lemma emaSpec_getD_zero (span : ℕ) (xs : List α) :
    (emaSpec span xs).getD 0 0 = xs.getD 0 0 := by
  cases xs with
  | nil => rfl
  | cons x rest => rfl

lemma emaSpec_getD_succ (span : ℕ) (xs : List α) (t : ℕ) (ht : t + 1 < xs.length) :
    (emaSpec span xs).getD (t + 1) 0 =
      ewmAlpha span * xs.getD (t + 1) 0 + (1 - ewmAlpha span) * (emaSpec span xs).getD t 0 := by
  cases xs with
  | nil => simp at ht
  | cons x rest =>
    rw [emaSpec]
    have ht' : t < rest.length := by
      rw [List.length_cons] at ht
      omega
    have h := emaSpecFrom_getD (ewmAlpha span) rest x t ht'
    simpa using h

lemma ewmMean_length {α : Type} [LinearOrderedField α] (span : ℕ) (xs : List (PF α)) :
    (ewmMean span xs).length = xs.length := by
  rw [ewmMean]
  simp [List.length_scanl]

end EwmLemmas

section ClaimsMacd

variable {α : Type} [LinearOrderedField α]

/-- C5: for every non-empty close series, `calculate_macd` returns exactly
the series built from the spec EMA (smoothing `a = 2/(span+1)`, recurrence
`ema[t] = a*close[t] + (1-a)*ema[t-1]`, seed `ema[0] = close[0]`):
`macd = ema12 - ema26`, `signal = ema9(macd)`, `hist = macd - signal`; the
spec EMA satisfies the stated seed and recurrence, and all three outputs are
numeric (non-default) from bar 0 with no warm-up gap and full length. -/
theorem c5_calculate_macd (xs : List α) (hne : xs ≠ []) :
    (calculate_macd (xs.map PF.num) 12 26 9 =
      ((List.zipWith (fun u v => u - v) (emaSpec 12 xs) (emaSpec 26 xs)).map PF.num,
       (emaSpec 9 (List.zipWith (fun u v => u - v) (emaSpec 12 xs) (emaSpec 26 xs))).map PF.num,
       (List.zipWith (fun u v => u - v)
          (List.zipWith (fun u v => u - v) (emaSpec 12 xs) (emaSpec 26 xs))
          (emaSpec 9 (List.zipWith (fun u v => u - v) (emaSpec 12 xs) (emaSpec 26 xs)))).map
         PF.num)) ∧
    (∀ s : ℕ, (emaSpec s xs).getD 0 0 = xs.getD 0 0) ∧
    (∀ s t : ℕ, t + 1 < xs.length →
      (emaSpec s xs).getD (t + 1) 0 =
        ewmAlpha s * xs.getD (t + 1) 0 + (1 - ewmAlpha s) * (emaSpec s xs).getD t 0) ∧
    (calculate_macd (xs.map PF.num) 12 26 9).1.length = xs.length := by
  have h1 : calculate_macd (xs.map PF.num) 12 26 9 =
      (fillna 0 (List.zipWith PF.sub (ewmMean 12 (xs.map PF.num)) (ewmMean 26 (xs.map PF.num))),
       fillna 0 (ewmMean 9
         (List.zipWith PF.sub (ewmMean 12 (xs.map PF.num)) (ewmMean 26 (xs.map PF.num)))),
       fillna 0 (List.zipWith PF.sub
         (List.zipWith PF.sub (ewmMean 12 (xs.map PF.num)) (ewmMean 26 (xs.map PF.num)))
         (ewmMean 9
           (List.zipWith PF.sub (ewmMean 12 (xs.map PF.num)) (ewmMean 26 (xs.map PF.num)))))) :=
    rfl
  have hmacd : List.zipWith PF.sub (ewmMean 12 (xs.map PF.num)) (ewmMean 26 (xs.map PF.num))
      = (List.zipWith (fun u v => u - v) (emaSpec 12 xs) (emaSpec 26 xs)).map PF.num := by
    rw [ewmMean_map_num, ewmMean_map_num, zipWith_sub_map_num]
  have hEq : calculate_macd (xs.map PF.num) 12 26 9 =
      ((List.zipWith (fun u v => u - v) (emaSpec 12 xs) (emaSpec 26 xs)).map PF.num,
       (emaSpec 9 (List.zipWith (fun u v => u - v) (emaSpec 12 xs) (emaSpec 26 xs))).map PF.num,
       (List.zipWith (fun u v => u - v)
          (List.zipWith (fun u v => u - v) (emaSpec 12 xs) (emaSpec 26 xs))
          (emaSpec 9 (List.zipWith (fun u v => u - v) (emaSpec 12 xs) (emaSpec 26 xs)))).map
         PF.num) := by
    rw [h1, hmacd, ewmMean_map_num, zipWith_sub_map_num, fillna_map_num, fillna_map_num,
      fillna_map_num]
  refine ⟨hEq, fun s => emaSpec_getD_zero s xs,
    fun s t ht => emaSpec_getD_succ s xs t ht, ?_⟩
  rw [hEq]
  simp [List.length_zipWith, emaSpec_length]

/-- Witness for C5 at the concrete two-bar series `[1, 2]`. -/
theorem c5_witness :
    (calculate_macd (([1, 2] : List ℚ).map PF.num) 12 26 9).1.length = 2 :=
  (c5_calculate_macd ([1, 2] : List ℚ) (by simp)).2.2.2

end ClaimsMacd

section BollingerLemmas

variable {α : Type} [LinearOrderedField α]

lemma getD_map_num (l : List α) (t : ℕ) (ht : t < l.length) :
    (l.map PF.num).getD t PF.nan = PF.num (l.getD t 0) := by
  rw [List.getD_eq_getElem?_getD, List.getElem?_map, List.getD_eq_getElem?_getD,
    List.getElem?_eq_getElem ht]
  rfl

lemma allFinite_map_num : ∀ l : List α, allFinite (l.map PF.num) = some l
  | [] => rfl
  | x :: rest => by
    rw [List.map_cons, allFinite, allFinite_map_num rest]
    rfl

lemma foldl_add_num_exact : ∀ (l : List α) (a : α),
    (l.map PF.num).foldl PF.add (PF.num a) = PF.num (a + l.sum)
  | [], a => by simp
  | x :: rest, a => by
    rw [List.map_cons, List.foldl_cons]
    have h1 : PF.add (PF.num a) (PF.num x) = PF.num (a + x) := rfl
    rw [h1, foldl_add_num_exact rest (a + x), List.sum_cons]
    ring_nf

lemma meanPF_map_num (l : List α) (hne : l ≠ []) :
    meanPF (l.map PF.num) = PF.num (windowMean l) := by
  have hl : (l.length : α) ≠ 0 := by
    have : 0 < l.length := List.length_pos.mpr hne
    exact_mod_cast Nat.pos_iff_ne_zero.mp this
  rw [meanPF, foldl_add_num_exact l 0, zero_add, List.length_map, PF.div]
  simp [hl, windowMean]

lemma rollingStd_length (sqrt : α → α) (w : ℕ) (xs : List (PF α)) :
    (rollingStd sqrt w xs).length = xs.length := by
  simp [rollingStd]

lemma rollingStd_getD (sqrt : α → α) (w : ℕ) (xs : List (PF α)) (t : ℕ)
    (ht : t < xs.length) :
    (rollingStd sqrt w xs).getD t PF.nan =
      if t + 1 < w then PF.nan
      else
        match allFinite ((xs.drop (t + 1 - w)).take w) with
        | some l => PF.num (sqrt (sampleVar l))
        | none => PF.nan := by
  simp [rollingStd, List.getD_eq_getElem?_getD, List.getElem?_map, List.getElem?_range, ht]

lemma window_map_num (xs : List α) (k w : ℕ) :
    (((xs.map PF.num).drop k).take w) = ((xs.drop k).take w).map PF.num := by
  rw [← List.map_drop, ← List.map_take]

lemma bollinger_getD (sqrt : α → α) (xs : List (PF α)) (p : ℕ) (sd : α) (t : ℕ)
    (ht : t < xs.length) :
    ((calculate_bollinger_bands sqrt xs p sd).1.getD t PF.nan =
      (if PF.add ((rollingMean p xs).getD t PF.nan)
          (PF.mul ((rollingStd sqrt p xs).getD t PF.nan) (PF.num sd)) = PF.nan
       then xs.getD t PF.nan
       else PF.add ((rollingMean p xs).getD t PF.nan)
          (PF.mul ((rollingStd sqrt p xs).getD t PF.nan) (PF.num sd)))) ∧
    ((calculate_bollinger_bands sqrt xs p sd).2.1.getD t PF.nan =
      (if (rollingMean p xs).getD t PF.nan = PF.nan
       then xs.getD t PF.nan
       else (rollingMean p xs).getD t PF.nan)) ∧
    ((calculate_bollinger_bands sqrt xs p sd).2.2.getD t PF.nan =
      (if PF.sub ((rollingMean p xs).getD t PF.nan)
          (PF.mul ((rollingStd sqrt p xs).getD t PF.nan) (PF.num sd)) = PF.nan
       then xs.getD t PF.nan
       else PF.sub ((rollingMean p xs).getD t PF.nan)
          (PF.mul ((rollingStd sqrt p xs).getD t PF.nan) (PF.num sd)))) := by
  have hM : (rollingMean p xs)[t]? = some ((rollingMean p xs).getD t PF.nan) := by
    rw [List.getD_eq_getElem?_getD,
      List.getElem?_eq_getElem (by rw [rollingMean_length]; exact ht)]
    rfl
  have hS : (rollingStd sqrt p xs)[t]? = some ((rollingStd sqrt p xs).getD t PF.nan) := by
    rw [List.getD_eq_getElem?_getD,
      List.getElem?_eq_getElem (by rw [rollingStd_length]; exact ht)]
    rfl
  have hX : xs[t]? = some (xs.getD t PF.nan) := by
    rw [List.getD_eq_getElem?_getD, List.getElem?_eq_getElem ht]
    rfl
  refine ⟨?_, ?_, ?_⟩
  · show (fillnaWith xs (List.zipWith _ (rollingMean p xs) (rollingStd sqrt p xs))).getD
      t PF.nan = _
    rw [fillnaWith, List.getD_eq_getElem?_getD, List.getElem?_zipWith,
      List.getElem?_zipWith, hM, hS, hX]
    rfl
  · show (fillnaWith xs (rollingMean p xs)).getD t PF.nan = _
    rw [fillnaWith, List.getD_eq_getElem?_getD, List.getElem?_zipWith, hM, hX]
    rfl
  · show (fillnaWith xs (List.zipWith _ (rollingMean p xs) (rollingStd sqrt p xs))).getD
      t PF.nan = _
    rw [fillnaWith, List.getD_eq_getElem?_getD, List.getElem?_zipWith,
      List.getElem?_zipWith, hM, hS, hX]
    rfl

end BollingerLemmas

section ClaimsBollinger

/-- C6: `calculate_bollinger_bands` returns middle = rolling mean over
`period` bars, upper = middle + (sample std, ddof=1) * std_dev, lower =
middle - that product; before a full window exists all three bands equal the
raw close at that position; and once warm-up has passed,
lower ≤ middle ≤ upper. -/
theorem c6_bollinger_bands (xs : List ℝ) (t : ℕ) (ht : t < xs.length) :
    (t + 1 < 20 →
      ((calculate_bollinger_bands Real.sqrt (xs.map PF.num) 20 2).1.getD t PF.nan
          = PF.num (xs.getD t 0) ∧
       (calculate_bollinger_bands Real.sqrt (xs.map PF.num) 20 2).2.1.getD t PF.nan
          = PF.num (xs.getD t 0) ∧
       (calculate_bollinger_bands Real.sqrt (xs.map PF.num) 20 2).2.2.getD t PF.nan
          = PF.num (xs.getD t 0))) ∧
    (¬ t + 1 < 20 →
      ((calculate_bollinger_bands Real.sqrt (xs.map PF.num) 20 2).2.1.getD t PF.nan
          = PF.num (windowMean ((xs.drop (t + 1 - 20)).take 20)) ∧
       (calculate_bollinger_bands Real.sqrt (xs.map PF.num) 20 2).1.getD t PF.nan
          = PF.num (windowMean ((xs.drop (t + 1 - 20)).take 20)
              + Real.sqrt (sampleVar ((xs.drop (t + 1 - 20)).take 20)) * 2) ∧
       (calculate_bollinger_bands Real.sqrt (xs.map PF.num) 20 2).2.2.getD t PF.nan
          = PF.num (windowMean ((xs.drop (t + 1 - 20)).take 20)
              - Real.sqrt (sampleVar ((xs.drop (t + 1 - 20)).take 20)) * 2) ∧
       windowMean ((xs.drop (t + 1 - 20)).take 20)
         - Real.sqrt (sampleVar ((xs.drop (t + 1 - 20)).take 20)) * 2
         ≤ windowMean ((xs.drop (t + 1 - 20)).take 20) ∧
       windowMean ((xs.drop (t + 1 - 20)).take 20)
         ≤ windowMean ((xs.drop (t + 1 - 20)).take 20)
           + Real.sqrt (sampleVar ((xs.drop (t + 1 - 20)).take 20)) * 2)) := by
  have ht' : t < (xs.map PF.num).length := by rw [List.length_map]; exact ht
  obtain ⟨hup, hmid, hlo⟩ := bollinger_getD Real.sqrt (xs.map PF.num) 20 2 t ht'
  have hMean := rollingMean_getD 20 (xs.map PF.num) t ht'
  have hStd := rollingStd_getD Real.sqrt 20 (xs.map PF.num) t ht'
  constructor
  · intro hpre
    rw [if_pos hpre] at hMean hStd
    rw [hMean] at hup hmid hlo
    rw [hStd] at hup hlo
    have e1 : PF.add (PF.nan : PF ℝ) (PF.mul PF.nan (PF.num 2)) = PF.nan := rfl
    have e2 : PF.sub (PF.nan : PF ℝ) (PF.mul PF.nan (PF.num 2)) = PF.nan := rfl
    rw [e1, if_pos rfl, getD_map_num xs t ht] at hup
    rw [if_pos rfl, getD_map_num xs t ht] at hmid
    rw [e2, if_pos rfl, getD_map_num xs t ht] at hlo
    exact ⟨hup, hmid, hlo⟩
  · intro hpost
    rw [if_neg hpost, window_map_num] at hMean hStd
    have hwne : (xs.drop (t + 1 - 20)).take 20 ≠ [] :=
      window_ne_nil xs 20 t (by norm_num) ht
    rw [meanPF_map_num _ hwne] at hMean
    rw [allFinite_map_num] at hStd
    have hStd2 : (rollingStd Real.sqrt 20 (xs.map PF.num)).getD t PF.nan
        = PF.num (Real.sqrt (sampleVar ((xs.drop (t + 1 - 20)).take 20))) := hStd
    rw [hMean] at hup hmid hlo
    rw [hStd2] at hup hlo
    have eu : PF.add (PF.num (windowMean ((xs.drop (t + 1 - 20)).take 20)))
        (PF.mul (PF.num (Real.sqrt (sampleVar ((xs.drop (t + 1 - 20)).take 20)))) (PF.num 2))
        = PF.num (windowMean ((xs.drop (t + 1 - 20)).take 20)
            + Real.sqrt (sampleVar ((xs.drop (t + 1 - 20)).take 20)) * 2) := rfl
    have el : PF.sub (PF.num (windowMean ((xs.drop (t + 1 - 20)).take 20)))
        (PF.mul (PF.num (Real.sqrt (sampleVar ((xs.drop (t + 1 - 20)).take 20)))) (PF.num 2))
        = PF.num (windowMean ((xs.drop (t + 1 - 20)).take 20)
            + -(Real.sqrt (sampleVar ((xs.drop (t + 1 - 20)).take 20)) * 2)) := rfl
    rw [eu, if_neg (by simp)] at hup
    rw [if_neg (by simp)] at hmid
    rw [el, if_neg (by simp)] at hlo
    have hs0 : 0 ≤ Real.sqrt (sampleVar ((xs.drop (t + 1 - 20)).take 20)) :=
      Real.sqrt_nonneg _
    refine ⟨hmid, hup, ?_, by linarith, by linarith⟩
    rw [hlo]
    have : windowMean ((xs.drop (t + 1 - 20)).take 20)
        + -(Real.sqrt (sampleVar ((xs.drop (t + 1 - 20)).take 20)) * 2)
        = windowMean ((xs.drop (t + 1 - 20)).take 20)
          - Real.sqrt (sampleVar ((xs.drop (t + 1 - 20)).take 20)) * 2 := by ring
    rw [this]

/-- Witness for C6 on a flat 21-bar series, at a pre-window position and at a
full-window position. -/
theorem c6_witness :
    ((calculate_bollinger_bands Real.sqrt ((List.replicate 21 (5 : ℝ)).map PF.num) 20 2).2.1.getD
        2 PF.nan = PF.num ((List.replicate 21 (5 : ℝ)).getD 2 0)) ∧
    ((calculate_bollinger_bands Real.sqrt ((List.replicate 21 (5 : ℝ)).map PF.num) 20 2).2.1.getD
        20 PF.nan
      = PF.num (windowMean (((List.replicate 21 (5 : ℝ)).drop (20 + 1 - 20)).take 20))) ∧
    (windowMean (((List.replicate 21 (5 : ℝ)).drop (20 + 1 - 20)).take 20)
      ≤ windowMean (((List.replicate 21 (5 : ℝ)).drop (20 + 1 - 20)).take 20)
        + Real.sqrt (sampleVar (((List.replicate 21 (5 : ℝ)).drop (20 + 1 - 20)).take 20)) * 2) :=
  ⟨((c6_bollinger_bands (List.replicate 21 (5 : ℝ)) 2 (by norm_num)).1 (by norm_num)).2.1,
   ((c6_bollinger_bands (List.replicate 21 (5 : ℝ)) 20 (by norm_num)).2 (by norm_num)).1,
   ((c6_bollinger_bands (List.replicate 21 (5 : ℝ)) 20 (by norm_num)).2 (by norm_num)).2.2.2.2⟩

end ClaimsBollinger

section FlatLemmas

variable {α : Type} [LinearOrderedField α]

lemma sub_num_self (c : α) : PF.sub (PF.num c) (PF.num c) = PF.num 0 := by
  show PF.num (c + -c) = PF.num 0
  norm_num

lemma replicate_num (k : ℕ) (c : α) :
    List.replicate k (PF.num c) = (List.replicate k c).map PF.num :=
  (List.map_replicate).symm

lemma diff_replicate (c : α) (n : ℕ) (hn : 0 < n) :
    diff ((List.replicate n c).map PF.num) = PF.nan :: List.replicate (n - 1) (PF.num 0) := by
  obtain ⟨m, rfl⟩ : ∃ m, n = m + 1 := ⟨n - 1, by omega⟩
  rw [List.map_replicate, List.replicate_succ, diff, ← List.replicate_succ,
    List.zipWith_replicate, sub_num_self]
  have h1 : m ⊓ (m + 1) = m := by omega
  have h2 : m + 1 - 1 = m := by omega
  rw [h1, h2]

lemma gainList_replicate (c : α) (n : ℕ) (hn : 0 < n) :
    whereKeep (fun d => PF.lt (PF.num 0) d) 0 (diff ((List.replicate n c).map PF.num))
      = List.replicate n (PF.num 0) := by
  rw [diff_replicate c n hn, whereKeep, List.map_cons, List.map_replicate]
  have h1 : (if PF.lt (PF.num 0) (PF.nan : PF α) then (PF.nan : PF α) else PF.num 0)
      = PF.num 0 := rfl
  have h2 : (if PF.lt (PF.num 0) (PF.num (0 : α)) then PF.num (0 : α) else PF.num 0)
      = PF.num 0 := by
    simp [PF.lt]
  rw [h1, h2, ← List.replicate_succ]
  congr 1
  omega

lemma lossList_replicate (c : α) (n : ℕ) (hn : 0 < n) :
    (whereKeep (fun d => PF.lt d (PF.num 0)) 0 (diff ((List.replicate n c).map PF.num))).map
      PF.neg = List.replicate n (PF.num 0) := by
  rw [diff_replicate c n hn, whereKeep, List.map_cons, List.map_replicate]
  have h1 : (if PF.lt (PF.nan : PF α) (PF.num 0) then (PF.nan : PF α) else PF.num 0)
      = PF.num 0 := rfl
  have h2 : (if PF.lt (PF.num (0 : α)) (PF.num 0) then PF.num (0 : α) else PF.num 0)
      = PF.num 0 := by
    simp [PF.lt]
  rw [h1, h2, List.map_cons, List.map_replicate]
  have h3 : PF.neg (PF.num (0 : α)) = PF.num 0 := by
    show PF.num (-(0 : α)) = PF.num 0
    norm_num
  rw [h3, ← List.replicate_succ]
  congr 1
  omega

lemma rollingMean_replicate_zero (n t : ℕ) (ht : t < n) :
    (rollingMean 14 (List.replicate n (PF.num (0 : α)))).getD t PF.nan
      = if t + 1 < 14 then PF.nan else PF.num 0 := by
  rw [rollingMean_getD 14 _ t (by rw [List.length_replicate]; exact ht)]
  split
  · rfl
  · rename_i hpost
    rw [List.drop_replicate, List.take_replicate, replicate_num]
    have hk : 0 < 14 ⊓ (n - (t + 1 - 14)) := by omega
    rw [meanPF_map_num _ (List.ne_nil_of_length_pos (by rw [List.length_replicate]; exact hk))]
    rw [windowMean, List.sum_replicate, List.length_replicate, smul_zero, zero_div]

lemma calculate_rsi_replicate (c : α) (n t : ℕ) (ht : t < n) :
    (calculate_rsi ((List.replicate n c).map PF.num) 14).getD t PF.nan = PF.num 50 := by
  have hn : 0 < n := by omega
  have ht' : t < ((List.replicate n c).map PF.num).length := by
    rw [List.length_map, List.length_replicate]; exact ht
  rw [List.getD_eq_getElem?_getD, calculate_rsi_getElem _ 14 t ht']
  have hg : (rsiAvgGain ((List.replicate n c).map PF.num) 14).getD t PF.nan
      = if t + 1 < 14 then PF.nan else PF.num 0 := by
    rw [rsiAvgGain, gainList_replicate c n hn]
    exact rollingMean_replicate_zero n t ht
  have hl : (rsiAvgLoss ((List.replicate n c).map PF.num) 14).getD t PF.nan
      = if t + 1 < 14 then PF.nan else PF.num 0 := by
    rw [rsiAvgLoss, lossList_replicate c n hn]
    exact rollingMean_replicate_zero n t ht
  rw [hg, hl]
  by_cases hw : t + 1 < 14
  · rw [if_pos hw]
    rfl
  · rw [if_neg hw]
    have hdiv : PF.div (PF.num (0 : α)) (PF.num 0) = PF.nan := by
      simp [PF.div]
    rw [hdiv, rsiOfRs_nan, if_pos rfl]
    rfl

lemma emaSpecFrom_replicate (a : α) : ∀ (m : ℕ) (prev c : α), prev = c →
    emaSpecFrom a prev (List.replicate m c) = List.replicate m c
  | 0, prev, c, h => rfl
  | m + 1, prev, c, h => by
    rw [List.replicate_succ, emaSpecFrom]
    have he : a * c + (1 - a) * prev = c := by rw [h]; ring
    rw [he, emaSpecFrom_replicate a m c c rfl, ← List.replicate_succ]

lemma emaSpec_replicate (span : ℕ) (c : α) (n : ℕ) :
    emaSpec span (List.replicate n c) = List.replicate n c := by
  cases n with
  | zero => rfl
  | succ m =>
    rw [List.replicate_succ, emaSpec, emaSpecFrom_replicate (ewmAlpha span) m c c rfl,
      ← List.replicate_succ]

lemma calculate_macd_replicate (c : α) (n : ℕ) :
    calculate_macd ((List.replicate n c).map PF.num) 12 26 9 =
      (List.replicate n (PF.num (0 : α)), List.replicate n (PF.num (0 : α)),
       List.replicate n (PF.num (0 : α))) := by
  have hewm : ∀ s : ℕ, ewmMean s ((List.replicate n c).map PF.num)
      = List.replicate n (PF.num c) := by
    intro s
    rw [ewmMean_map_num, emaSpec_replicate, List.map_replicate]
  have hzip : List.zipWith PF.sub (List.replicate n (PF.num c)) (List.replicate n (PF.num c))
      = List.replicate n (PF.num (0 : α)) := by
    rw [List.zipWith_replicate, sub_num_self]
    congr 1
    omega
  have hzero : List.replicate n (PF.num (0 : α)) = (List.replicate n (0 : α)).map PF.num := by
    rw [List.map_replicate]
  have hewm0 : ewmMean 9 (List.replicate n (PF.num (0 : α)))
      = List.replicate n (PF.num (0 : α)) := by
    rw [hzero, ewmMean_map_num, emaSpec_replicate, List.map_replicate]
  have hfill : fillna 0 (List.replicate n (PF.num (0 : α)))
      = List.replicate n (PF.num (0 : α)) := by
    rw [hzero, fillna_map_num]
  have h1 : calculate_macd ((List.replicate n c).map PF.num) 12 26 9 =
      (fillna 0 (List.zipWith PF.sub (ewmMean 12 ((List.replicate n c).map PF.num))
        (ewmMean 26 ((List.replicate n c).map PF.num))),
       fillna 0 (ewmMean 9 (List.zipWith PF.sub (ewmMean 12 ((List.replicate n c).map PF.num))
        (ewmMean 26 ((List.replicate n c).map PF.num)))),
       fillna 0 (List.zipWith PF.sub
        (List.zipWith PF.sub (ewmMean 12 ((List.replicate n c).map PF.num))
          (ewmMean 26 ((List.replicate n c).map PF.num)))
        (ewmMean 9 (List.zipWith PF.sub (ewmMean 12 ((List.replicate n c).map PF.num))
          (ewmMean 26 ((List.replicate n c).map PF.num)))))) := rfl
  rw [h1, hewm 12, hewm 26, hzip, hewm0, hfill]
  have hzip0 : List.zipWith PF.sub (List.replicate n (PF.num (0 : α)))
      (List.replicate n (PF.num (0 : α))) = List.replicate n (PF.num (0 : α)) := by
    rw [List.zipWith_replicate, sub_num_self]
    congr 1
    omega
  rw [hzip0, hfill]

lemma windowMean_replicate (k : ℕ) (c : α) (hk : 0 < k) :
    windowMean (List.replicate k c) = c := by
  rw [windowMean, List.sum_replicate, List.length_replicate, nsmul_eq_mul]
  have : (k : α) ≠ 0 := Nat.cast_ne_zero.mpr (by omega)
  field_simp

lemma sampleVar_replicate (k : ℕ) (c : α) (hk : 0 < k) :
    sampleVar (List.replicate k c) = 0 := by
  rw [sampleVar, windowMean_replicate k c hk, List.map_replicate, sub_self]
  have h2 : (0 : α) ^ 2 = 0 := by norm_num
  rw [h2, List.sum_replicate, smul_zero, zero_div]

lemma getD_replicate (n t : ℕ) (c : α) (ht : t < n) :
    (List.replicate n c).getD t 0 = c := by
  rw [List.getD_eq_getElem?_getD, List.getElem?_replicate, if_pos ht]
  rfl

lemma bollinger_replicate (n t : ℕ) (ht : t < n) :
    ((calculate_bollinger_bands Real.sqrt ((List.replicate n (100 : ℝ)).map PF.num) 20
        2).1.getD t PF.nan = PF.num 100) ∧
    ((calculate_bollinger_bands Real.sqrt ((List.replicate n (100 : ℝ)).map PF.num) 20
        2).2.1.getD t PF.nan = PF.num 100) ∧
    ((calculate_bollinger_bands Real.sqrt ((List.replicate n (100 : ℝ)).map PF.num) 20
        2).2.2.getD t PF.nan = PF.num 100) := by
  have hlen : t < (List.replicate n (100 : ℝ)).length := by
    rw [List.length_replicate]; exact ht
  have hlen2 : t < ((List.replicate n (100 : ℝ)).map PF.num).length := by
    rw [List.length_map]; exact hlen
  obtain ⟨hup, hmid, hlo⟩ :=
    bollinger_getD Real.sqrt ((List.replicate n (100 : ℝ)).map PF.num) 20 2 t hlen2
  have hMean := rollingMean_getD 20 ((List.replicate n (100 : ℝ)).map PF.num) t hlen2
  have hStd := rollingStd_getD Real.sqrt 20 ((List.replicate n (100 : ℝ)).map PF.num) t hlen2
  have hraw : ((List.replicate n (100 : ℝ)).map PF.num).getD t PF.nan = PF.num 100 := by
    rw [getD_map_num _ t hlen, getD_replicate n t _ ht]
  by_cases hw : t + 1 < 20
  · rw [if_pos hw] at hMean hStd
    rw [hMean] at hup hmid hlo
    rw [hStd] at hup hlo
    have e1 : PF.add (PF.nan : PF ℝ) (PF.mul PF.nan (PF.num 2)) = PF.nan := rfl
    have e2 : PF.sub (PF.nan : PF ℝ) (PF.mul PF.nan (PF.num 2)) = PF.nan := rfl
    rw [e1, if_pos rfl, hraw] at hup
    rw [if_pos rfl, hraw] at hmid
    rw [e2, if_pos rfl, hraw] at hlo
    exact ⟨hup, hmid, hlo⟩
  · rw [if_neg hw] at hMean hStd
    have hwin : ((((List.replicate n (100 : ℝ)).map PF.num).drop (t + 1 - 20)).take 20)
        = List.replicate (20 ⊓ (n - (t + 1 - 20))) (PF.num (100 : ℝ)) := by
      rw [List.map_replicate, List.drop_replicate, List.take_replicate]
    have hk : 0 < 20 ⊓ (n - (t + 1 - 20)) := by omega
    rw [hwin, replicate_num] at hMean hStd
    rw [meanPF_map_num _ (List.ne_nil_of_length_pos (by rw [List.length_replicate]; exact hk)),
      windowMean_replicate _ _ hk] at hMean
    rw [allFinite_map_num] at hStd
    have hStd2 : (rollingStd Real.sqrt 20 ((List.replicate n (100 : ℝ)).map PF.num)).getD
        t PF.nan
        = PF.num (Real.sqrt (sampleVar (List.replicate (20 ⊓ (n - (t + 1 - 20))) (100 : ℝ)))) :=
      hStd
    rw [sampleVar_replicate _ _ hk, Real.sqrt_zero] at hStd2
    rw [hMean] at hup hmid hlo
    rw [hStd2] at hup hlo
    have eu : PF.add (PF.num (100 : ℝ)) (PF.mul (PF.num (0 : ℝ)) (PF.num 2)) = PF.num 100 := by
      show PF.num ((100 : ℝ) + 0 * 2) = PF.num 100
      norm_num
    have el : PF.sub (PF.num (100 : ℝ)) (PF.mul (PF.num (0 : ℝ)) (PF.num 2)) = PF.num 100 := by
      show PF.num ((100 : ℝ) + -(0 * 2)) = PF.num 100
      norm_num
    rw [eu, if_neg (by simp)] at hup
    rw [if_neg (by simp)] at hmid
    rw [el, if_neg (by simp)] at hlo
    exact ⟨hup, hmid, hlo⟩

lemma velocity_replicate (n : ℕ) (hn : 6 ≤ n) (c : α) (hc : c ≠ 0) :
    score_price_velocity (List.replicate n c) 5 = 50 := by
  have hlast : (List.replicate n c).getLast?.getD 0 = c := by
    rw [List.getLast?_eq_getElem?, List.length_replicate, List.getElem?_replicate,
      if_pos (by omega)]
    rfl
  have hpast : (List.replicate n c).getD (n - 5 - 1) 0 = c := by
    rw [List.getD_eq_getElem?_getD, List.getElem?_replicate, if_pos (by omega)]
    rfl
  simp only [score_price_velocity, List.length_replicate]
  rw [if_neg (by omega)]
  rw [hlast, hpast, if_neg hc]
  rw [sub_self, zero_div, zero_mul]
  rw [if_neg (by norm_num), if_pos le_rfl]
  norm_num

lemma momentum_flat (df : List ℝ) (hl : 0 < df.length) (hv : score_price_velocity df 5 = 50) :
    calculate_momentum_score (Row.mk (100 : ℝ) 50 0 0 0 100 100 100) (some df) = 53 := by
  have h1 : score_rsi (50 : ℝ) = 60 := by norm_num [score_rsi]
  have h2 : score_macd (0 : ℝ) 0 0 = 50 := by norm_num [score_macd]
  have h3 : score_bollinger_bands (100 : ℝ) 100 100 100 = 50 := by
    rw [score_bollinger_bands, if_pos rfl]
  have h4 : velocityOf (some df) = 50 := by
    rw [velocityOf, if_pos hl, hv]
  show max 0 (min 100 (score_rsi (50 : ℝ) * (30 / 100) + score_macd 0 0 0 * (30 / 100) +
    score_bollinger_bands 100 100 100 100 * (20 / 100) + velocityOf (some df) * (20 / 100))) = 53
  rw [h1, h2, h3, h4]
  norm_num

end FlatLemmas

section ClaimsPipeline

/-- C8 (amended): on a flat close series `close[t] = 100` of length at least
20, the pipeline yields RSI = 50 at every bar, MACD histogram identically 0,
MACD component score 50, equal upper and lower Bollinger bands with component
score 50, velocity component score 50 — but the RSI component score is 60
(`score_rsi 50 = 60`), so the composite momentum score is exactly 53.0, and
the signal is NEUTRAL. -/
theorem c8_flat_pipeline (n : ℕ) (hn : 20 ≤ n) :
    (∀ t, t < n → (calculate_rsi ((List.replicate n (100 : ℝ)).map PF.num) 14).getD t PF.nan
        = PF.num 50) ∧
    (calculate_macd ((List.replicate n (100 : ℝ)).map PF.num) 12 26 9).2.2
        = List.replicate n (PF.num (0 : ℝ)) ∧
    score_macd (0 : ℝ) 0 0 = 50 ∧
    (∀ t, t < n →
      (calculate_bollinger_bands Real.sqrt ((List.replicate n (100 : ℝ)).map PF.num) 20
          2).1.getD t PF.nan
        = (calculate_bollinger_bands Real.sqrt ((List.replicate n (100 : ℝ)).map PF.num) 20
            2).2.2.getD t PF.nan) ∧
    score_bollinger_bands (100 : ℝ) 100 100 100 = 50 ∧
    score_price_velocity (List.replicate n (100 : ℝ)) 5 = 50 ∧
    calculate_momentum_score (Row.mk (100 : ℝ) 50 0 0 0 100 100 100)
        (some (List.replicate n (100 : ℝ))) = 53 ∧
    get_signal (calculate_momentum_score (Row.mk (100 : ℝ) 50 0 0 0 100 100 100)
        (some (List.replicate n (100 : ℝ)))) = "NEUTRAL" := by
  have hvel : score_price_velocity (List.replicate n (100 : ℝ)) 5 = 50 :=
    velocity_replicate n (by omega) 100 (by norm_num)
  have hmom : calculate_momentum_score (Row.mk (100 : ℝ) 50 0 0 0 100 100 100)
      (some (List.replicate n (100 : ℝ))) = 53 :=
    momentum_flat _ (by rw [List.length_replicate]; omega) hvel
  refine ⟨fun t ht => calculate_rsi_replicate 100 n t ht, ?_, by norm_num [score_macd], ?_,
    by rw [score_bollinger_bands, if_pos rfl], hvel, hmom, ?_⟩
  · rw [calculate_macd_replicate]
  · intro t ht
    obtain ⟨hup, _, hlo⟩ := bollinger_replicate n t ht
    rw [hup, hlo]
  · rw [hmom]
    norm_num [get_signal]

/-- Witness for C8 at the concrete flat series of length 25. -/
theorem c8_witness :
    ((calculate_rsi ((List.replicate 25 (100 : ℝ)).map PF.num) 14).getD 24 PF.nan
        = PF.num 50) ∧
    get_signal (calculate_momentum_score (Row.mk (100 : ℝ) 50 0 0 0 100 100 100)
        (some (List.replicate 25 (100 : ℝ)))) = "NEUTRAL" :=
  ⟨(c8_flat_pipeline 25 (by norm_num)).1 24 (by norm_num),
   (c8_flat_pipeline 25 (by norm_num)).2.2.2.2.2.2.2⟩

/-- C8 counterexample: on the flat series of 25 bars at 100 the indicator
values are the neutral ones the claim lists, yet the composite momentum
score is 53, not exactly 50, because `score_rsi 50 = 60`. -/
theorem c8_counterexample :
    calculate_momentum_score (Row.mk (100 : ℝ) 50 0 0 0 100 100 100)
        (some (List.replicate 25 (100 : ℝ))) = 53 ∧
    (53 : ℝ) ≠ 50 ∧
    ((calculate_rsi ((List.replicate 25 (100 : ℝ)).map PF.num) 14).getD 24 PF.nan
        = PF.num 50) ∧
    ((calculate_macd ((List.replicate 25 (100 : ℝ)).map PF.num) 12 26 9).2.2.getD 24 PF.nan
        = PF.num 0) := by
  refine ⟨?_, by norm_num, ?_, ?_⟩
  · exact momentum_flat _ (by rw [List.length_replicate]; norm_num)
      (velocity_replicate 25 (by norm_num) 100 (by norm_num))
  · exact calculate_rsi_replicate 100 25 24 (by norm_num)
  · rw [calculate_macd_replicate, List.getD_eq_getElem?_getD, List.getElem?_replicate,
      if_pos (by norm_num)]
    rfl

end ClaimsPipeline

section ShapeLemmas

variable {α : Type} [LinearOrderedField α]

lemma nn_nan : NN (PF.nan : PF α) := Or.inl rfl

lemma nn_num (q : α) : NN (PF.num q) := Or.inr ⟨q, rfl⟩

lemma sub_nn {v w : PF α} (hv : NN v) (hw : NN w) : NN (PF.sub v w) := by
  rcases hv with rfl | ⟨a, rfl⟩ <;> rcases hw with rfl | ⟨b, rfl⟩
  · exact nn_nan
  · exact nn_nan
  · exact nn_nan
  · exact nn_num (a + -b)

lemma add_nn {v w : PF α} (hv : NN v) (hw : NN w) : NN (PF.add v w) := by
  rcases hv with rfl | ⟨a, rfl⟩ <;> rcases hw with rfl | ⟨b, rfl⟩
  · exact nn_nan
  · exact nn_nan
  · exact nn_nan
  · exact nn_num (a + b)

lemma mul_num_nn {v : PF α} (c : α) (hv : NN v) : NN (PF.mul v (PF.num c)) := by
  rcases hv with rfl | ⟨a, rfl⟩
  · exact nn_nan
  · exact nn_num (a * c)

lemma zipWith_sub_nn {l₁ l₂ : List (PF α)} (h₁ : ∀ v ∈ l₁, NN v) (h₂ : ∀ v ∈ l₂, NN v) :
    ∀ v ∈ List.zipWith PF.sub l₁ l₂, NN v := by
  induction l₁ generalizing l₂ with
  | nil => simp
  | cons a l₁ ih =>
    cases l₂ with
    | nil => simp
    | cons b l₂ =>
      intro v hv
      rcases List.mem_cons.mp hv with rfl | hv
      · exact sub_nn (h₁ a (List.mem_cons_self a l₁)) (h₂ b (List.mem_cons_self b l₂))
      · exact ih (fun w hw => h₁ w (List.mem_cons_of_mem _ hw))
          (fun w hw => h₂ w (List.mem_cons_of_mem _ hw)) v hv

lemma diff_nn {xs : List (PF α)} (hxs : ∀ v ∈ xs, NN v) : ∀ v ∈ diff xs, NN v := by
  cases xs with
  | nil => simp [diff]
  | cons x rest =>
    intro v hv
    rw [diff] at hv
    rcases List.mem_cons.mp hv with rfl | hv
    · exact nn_nan
    · exact zipWith_sub_nn (fun w hw => hxs w (List.mem_cons_of_mem _ hw)) hxs v hv

lemma whereKeepGain_shape_of {delta : List (PF α)} (hd : ∀ v ∈ delta, NN v) :
    ∀ v ∈ whereKeep (fun d => PF.lt (PF.num 0) d) 0 delta, ∃ q, v = PF.num q ∧ 0 ≤ q := by
  intro v hv
  rw [whereKeep, List.mem_map] at hv
  obtain ⟨d, hdm, rfl⟩ := hv
  rcases hd d hdm with rfl | ⟨q, rfl⟩
  · exact ⟨0, rfl, le_refl 0⟩
  · by_cases h : (0 : α) < q
    · exact ⟨q, by simp [PF.lt, h], le_of_lt h⟩
    · exact ⟨0, by simp [PF.lt, h], le_refl 0⟩

lemma whereKeepLoss_shape_of {delta : List (PF α)} (hd : ∀ v ∈ delta, NN v) :
    ∀ v ∈ (whereKeep (fun d => PF.lt d (PF.num 0)) 0 delta).map PF.neg,
      ∃ q, v = PF.num q ∧ 0 ≤ q := by
  intro v hv
  rw [List.mem_map] at hv
  obtain ⟨w, hw, rfl⟩ := hv
  rw [whereKeep, List.mem_map] at hw
  obtain ⟨d, hdm, rfl⟩ := hw
  rcases hd d hdm with rfl | ⟨q, rfl⟩
  · exact ⟨0, by simp [PF.lt, PF.neg], le_refl 0⟩
  · by_cases h : q < (0 : α)
    · exact ⟨-q, by simp [PF.lt, h, PF.neg], by linarith⟩
    · exact ⟨0, by simp [PF.lt, h, PF.neg], le_refl 0⟩

lemma foldl_add_nn : ∀ (l : List (PF α)) (s : PF α), NN s → (∀ v ∈ l, NN v) →
    NN (l.foldl PF.add s)
  | [], s, hs, _ => hs
  | v :: l, s, hs, h => by
    rw [List.foldl_cons]
    exact foldl_add_nn l (PF.add s v) (add_nn hs (h v (List.mem_cons_self v l)))
      (fun w hw => h w (List.mem_cons_of_mem _ hw))

lemma meanPF_nn (l : List (PF α)) (hne : l ≠ []) (h : ∀ v ∈ l, NN v) : NN (meanPF l) := by
  have hsum := foldl_add_nn l (PF.num 0) (nn_num 0) h
  have hlen : ((l.length : α)) ≠ 0 := by
    have : 0 < l.length := List.length_pos.mpr hne
    exact_mod_cast Nat.pos_iff_ne_zero.mp this
  rw [meanPF]
  rcases hsum with hnan | ⟨q, hq⟩
  · rw [hnan]
    exact nn_nan
  · rw [hq, PF.div, if_neg hlen]
    exact nn_num _

lemma rollingMean_nn (w : ℕ) (hw : 0 < w) (l : List (PF α)) (h : ∀ v ∈ l, NN v) (t : ℕ)
    (ht : t < l.length) : NN ((rollingMean w l).getD t PF.nan) := by
  rw [rollingMean_getD w l t ht]
  split
  · exact nn_nan
  · exact meanPF_nn _ (window_ne_nil l w t hw ht)
      (fun v hv => h v (List.drop_subset _ _ (List.take_subset _ _ hv)))

lemma ewmStep_nn (a : α) (ha : 0 < a) (ha1 : a ≤ 1) (s : PF α × α) (hs1 : NN s.1)
    (hs2 : 0 ≤ s.2) (cur : PF α) (hcur : NN cur) :
    NN (ewmStep a s cur).1 ∧ 0 ≤ (ewmStep a s cur).2 := by
  obtain ⟨wavg, oldWt⟩ := s
  simp only at hs1 hs2
  rw [ewmStep]
  simp only
  by_cases hw : wavg = PF.nan
  · rw [if_pos hw]
    by_cases hc : cur = PF.nan
    · rw [if_pos hc]
      exact ⟨nn_nan, hs2⟩
    · rw [if_neg hc]
      exact ⟨hcur, hs2⟩
  · rw [if_neg hw]
    have holdwt2 : (0 : α) ≤ oldWt * (1 - a) := mul_nonneg hs2 (by linarith)
    by_cases hc : cur = PF.nan
    · rw [if_pos hc]
      exact ⟨hs1, holdwt2⟩
    · rw [if_neg hc]
      refine ⟨?_, by norm_num⟩
      by_cases he : wavg = cur
      · rw [if_pos he]
        exact hs1
      · rw [if_neg he]
        rcases hs1 with h | ⟨p, rfl⟩
        · exact absurd h hw
        rcases hcur with h | ⟨x, rfl⟩
        · exact absurd h hc
        have hden : oldWt * (1 - a) + a ≠ 0 := by nlinarith
        show NN (PF.div (PF.num (oldWt * (1 - a) * p + a * x)) (PF.num (oldWt * (1 - a) + a)))
        rw [PF.div, if_neg hden]
        exact nn_num _

lemma ewm_scanl_nn (a : α) (ha : 0 < a) (ha1 : a ≤ 1) :
    ∀ (xs : List (PF α)) (s : PF α × α), NN s.1 → 0 ≤ s.2 → (∀ v ∈ xs, NN v) →
      ∀ p ∈ xs.scanl (ewmStep a) s, NN p.1
  | [], s, hs1, _, _, p, hp => by
    rw [List.scanl] at hp
    rcases List.mem_cons.mp hp with rfl | hp
    · exact hs1
    · simp at hp
  | x :: xs, s, hs1, hs2, hxs, p, hp => by
    rw [List.scanl_cons, List.singleton_append] at hp
    rcases List.mem_cons.mp hp with rfl | hp
    · exact hs1
    · obtain ⟨h1, h2⟩ := ewmStep_nn a ha ha1 s hs1 hs2 x (hxs x (List.mem_cons_self x xs))
      exact ewm_scanl_nn a ha ha1 xs _ h1 h2
        (fun v hv => hxs v (List.mem_cons_of_mem _ hv)) p hp

lemma ewmAlpha_pos (s : ℕ) : (0 : α) < ewmAlpha s := by
  rw [ewmAlpha]
  have : (0 : α) ≤ (s : α) := Nat.cast_nonneg s
  positivity

lemma ewmAlpha_le_one (s : ℕ) (hs : 1 ≤ s) : (ewmAlpha s : α) ≤ 1 := by
  rw [ewmAlpha]
  have h1 : (1 : α) ≤ (s : α) := by exact_mod_cast hs
  rw [div_le_one (by linarith)]
  linarith

lemma ewmMean_nn (span : ℕ) (hsp : 1 ≤ span) (xs : List (PF α)) (hxs : ∀ v ∈ xs, NN v) :
    ∀ v ∈ ewmMean span xs, NN v := by
  intro v hv
  rw [ewmMean] at hv
  obtain ⟨p, hp, rfl⟩ := List.mem_map.mp hv
  have hp2 : p ∈ xs.scanl (ewmStep (ewmAlpha span)) (PF.nan, 1) := List.drop_subset _ _ hp
  exact ewm_scanl_nn _ (ewmAlpha_pos span) (ewmAlpha_le_one span hsp) xs _ nn_nan
    (by norm_num) hxs p hp2

lemma fillna_finite (d : α) (l : List (PF α)) (h : ∀ v ∈ l, NN v) :
    ∀ v ∈ fillna d l, ∃ q, v = PF.num q := by
  intro v hv
  rw [fillna, List.mem_map] at hv
  obtain ⟨w, hw, rfl⟩ := hv
  rcases h w hw with rfl | ⟨q, rfl⟩
  · exact ⟨d, by simp⟩
  · exact ⟨q, by simp⟩

lemma calculate_rsi_finite (xs : List (PF α)) (hxs : ∀ v ∈ xs, NN v) :
    ∀ v ∈ calculate_rsi xs 14, ∃ q, v = PF.num q ∧ 0 ≤ q ∧ q ≤ 100 := by
  intro v hv
  obtain ⟨t, hvt⟩ := List.mem_iff_getElem?.mp hv
  obtain ⟨htlen, _⟩ := List.getElem?_eq_some.mp hvt
  rw [calculate_rsi_length] at htlen
  have hdelta := diff_nn hxs
  set G := whereKeep (fun d => PF.lt (PF.num 0) d) 0 (diff xs) with hG
  set L := (whereKeep (fun d => PF.lt d (PF.num 0)) 0 (diff xs)).map PF.neg with hL
  have htG : t < G.length := by
    rw [hG, whereKeep_length, diff_length]; exact htlen
  have htL : t < L.length := by
    rw [hL, List.length_map, whereKeep_length, diff_length]; exact htlen
  have hgain := rollingMean_entry_shape 14 G t (by norm_num) htG
    (whereKeepGain_shape_of hdelta)
  have hloss := rollingMean_entry_shape 14 L t (by norm_num) htL
    (whereKeepLoss_shape_of hdelta)
  obtain ⟨q, hq, hq1, hq2⟩ := rsiOfRs_fillna_range
    ((rsiAvgGain xs 14).getD t PF.nan) ((rsiAvgLoss xs 14).getD t PF.nan)
    (by rw [rsiAvgGain, ← hG]; exact hgain) (by rw [rsiAvgLoss, ← hL]; exact hloss)
  rw [calculate_rsi_getElem xs 14 t htlen] at hvt
  refine ⟨q, ?_, hq1, hq2⟩
  have : v = (if rsiOfRs (PF.div ((rsiAvgGain xs 14).getD t PF.nan)
      ((rsiAvgLoss xs 14).getD t PF.nan)) = PF.nan
    then PF.num 50
    else rsiOfRs (PF.div ((rsiAvgGain xs 14).getD t PF.nan)
      ((rsiAvgLoss xs 14).getD t PF.nan))) := by
    injection hvt.symm
  rw [this, hq]

lemma calculate_macd_finite (xs : List (PF α)) (hxs : ∀ v ∈ xs, NN v) :
    ((calculate_macd xs 12 26 9).1.length = xs.length ∧
     (calculate_macd xs 12 26 9).2.1.length = xs.length ∧
     (calculate_macd xs 12 26 9).2.2.length = xs.length) ∧
    ((∀ v ∈ (calculate_macd xs 12 26 9).1, ∃ q, v = PF.num q) ∧
     (∀ v ∈ (calculate_macd xs 12 26 9).2.1, ∃ q, v = PF.num q) ∧
     (∀ v ∈ (calculate_macd xs 12 26 9).2.2, ∃ q, v = PF.num q)) := by
  have h1 : calculate_macd xs 12 26 9 =
      (fillna 0 (List.zipWith PF.sub (ewmMean 12 xs) (ewmMean 26 xs)),
       fillna 0 (ewmMean 9 (List.zipWith PF.sub (ewmMean 12 xs) (ewmMean 26 xs))),
       fillna 0 (List.zipWith PF.sub (List.zipWith PF.sub (ewmMean 12 xs) (ewmMean 26 xs))
         (ewmMean 9 (List.zipWith PF.sub (ewmMean 12 xs) (ewmMean 26 xs))))) := rfl
  have hm : ∀ v ∈ List.zipWith PF.sub (ewmMean 12 xs) (ewmMean 26 xs), NN v :=
    zipWith_sub_nn (ewmMean_nn 12 (by norm_num) xs hxs) (ewmMean_nn 26 (by norm_num) xs hxs)
  have hs : ∀ v ∈ ewmMean 9 (List.zipWith PF.sub (ewmMean 12 xs) (ewmMean 26 xs)), NN v :=
    ewmMean_nn 9 (by norm_num) _ hm
  have hh : ∀ v ∈ List.zipWith PF.sub
      (List.zipWith PF.sub (ewmMean 12 xs) (ewmMean 26 xs))
      (ewmMean 9 (List.zipWith PF.sub (ewmMean 12 xs) (ewmMean 26 xs))), NN v :=
    zipWith_sub_nn hm hs
  have hmlen : (List.zipWith PF.sub (ewmMean 12 xs) (ewmMean 26 xs)).length = xs.length := by
    rw [List.length_zipWith, ewmMean_length, ewmMean_length]
    omega
  rw [h1]
  refine ⟨⟨?_, ?_, ?_⟩, fillna_finite 0 _ hm, fillna_finite 0 _ hs, fillna_finite 0 _ hh⟩
  · rw [fillna_length, hmlen]
  · rw [fillna_length, ewmMean_length, hmlen]
  · rw [fillna_length, List.length_zipWith, hmlen, ewmMean_length, hmlen]
    omega

lemma rollingStd_nn (sqrt : α → α) (w : ℕ) (xs : List (PF α)) (t : ℕ) (ht : t < xs.length) :
    NN ((rollingStd sqrt w xs).getD t PF.nan) := by
  rw [rollingStd_getD sqrt w xs t ht]
  split
  · exact nn_nan
  · split
    · exact nn_num _
    · exact nn_nan

lemma bollinger_entries (sqrt : α → α) (xs : List (PF α)) (hxs : ∀ v ∈ xs, NN v) (t : ℕ)
    (ht : t < xs.length) :
    ((calculate_bollinger_bands sqrt xs 20 2).1.getD t PF.nan = xs.getD t PF.nan ∨
      ∃ q, (calculate_bollinger_bands sqrt xs 20 2).1.getD t PF.nan = PF.num q) ∧
    ((calculate_bollinger_bands sqrt xs 20 2).2.1.getD t PF.nan = xs.getD t PF.nan ∨
      ∃ q, (calculate_bollinger_bands sqrt xs 20 2).2.1.getD t PF.nan = PF.num q) ∧
    ((calculate_bollinger_bands sqrt xs 20 2).2.2.getD t PF.nan = xs.getD t PF.nan ∨
      ∃ q, (calculate_bollinger_bands sqrt xs 20 2).2.2.getD t PF.nan = PF.num q) := by
  obtain ⟨hup, hmid, hlo⟩ := bollinger_getD sqrt xs 20 2 t ht
  have hM : NN ((rollingMean 20 xs).getD t PF.nan) :=
    rollingMean_nn 20 (by norm_num) xs hxs t ht
  have hS : NN ((rollingStd sqrt 20 xs).getD t PF.nan) := rollingStd_nn sqrt 20 xs t ht
  have hU : NN (PF.add ((rollingMean 20 xs).getD t PF.nan)
      (PF.mul ((rollingStd sqrt 20 xs).getD t PF.nan) (PF.num 2))) :=
    add_nn hM (mul_num_nn 2 hS)
  have hLo : NN (PF.sub ((rollingMean 20 xs).getD t PF.nan)
      (PF.mul ((rollingStd sqrt 20 xs).getD t PF.nan) (PF.num 2))) :=
    sub_nn hM (mul_num_nn 2 hS)
  refine ⟨?_, ?_, ?_⟩
  · rw [hup]
    rcases hU with hn | ⟨q, hq⟩
    · rw [hn, if_pos rfl]
      exact Or.inl rfl
    · rw [hq]
      exact Or.inr ⟨q, by rw [if_neg (by simp)]⟩
  · rw [hmid]
    rcases hM with hn | ⟨q, hq⟩
    · rw [hn, if_pos rfl]
      exact Or.inl rfl
    · rw [hq]
      exact Or.inr ⟨q, by rw [if_neg (by simp)]⟩
  · rw [hlo]
    rcases hLo with hn | ⟨q, hq⟩
    · rw [hn, if_pos rfl]
      exact Or.inl rfl
    · rw [hq]
      exact Or.inr ⟨q, by rw [if_neg (by simp)]⟩

lemma bollinger_lengths (sqrt : α → α) (xs : List (PF α)) :
    (calculate_bollinger_bands sqrt xs 20 2).1.length = xs.length ∧
    (calculate_bollinger_bands sqrt xs 20 2).2.1.length = xs.length ∧
    (calculate_bollinger_bands sqrt xs 20 2).2.2.length = xs.length := by
  have h1 : calculate_bollinger_bands sqrt xs 20 2 =
      (fillnaWith xs (List.zipWith (fun m s => PF.add m (PF.mul s (PF.num 2)))
        (rollingMean 20 xs) (rollingStd sqrt 20 xs)),
       fillnaWith xs (rollingMean 20 xs),
       fillnaWith xs (List.zipWith (fun m s => PF.sub m (PF.mul s (PF.num 2)))
        (rollingMean 20 xs) (rollingStd sqrt 20 xs))) := rfl
  rw [h1]
  refine ⟨?_, ?_, ?_⟩ <;>
    simp [fillnaWith, List.length_zipWith, rollingMean_length, rollingStd_length]

end ShapeLemmas

section ClaimsRobustness

/-- C9: for every input close series — empty or containing NaN — the three
indicator functions return full-length series without raising: RSI and the
three MACD outputs are plain numbers everywhere (neutral defaults filled in
for every NaN), and each Bollinger band entry is either a computed number or
exactly the raw close at that position. -/
theorem c9_never_fatal (xs : List (PF ℝ)) (hfin : ∀ v ∈ xs, NN v) :
    ((calculate_rsi xs 14).length = xs.length ∧
     ∀ v ∈ calculate_rsi xs 14, ∃ q, v = PF.num q) ∧
    ((calculate_macd xs 12 26 9).1.length = xs.length ∧
     (calculate_macd xs 12 26 9).2.1.length = xs.length ∧
     (calculate_macd xs 12 26 9).2.2.length = xs.length ∧
     (∀ v ∈ (calculate_macd xs 12 26 9).1, ∃ q, v = PF.num q) ∧
     (∀ v ∈ (calculate_macd xs 12 26 9).2.1, ∃ q, v = PF.num q) ∧
     (∀ v ∈ (calculate_macd xs 12 26 9).2.2, ∃ q, v = PF.num q)) ∧
    ((calculate_bollinger_bands Real.sqrt xs 20 2).1.length = xs.length ∧
     (calculate_bollinger_bands Real.sqrt xs 20 2).2.1.length = xs.length ∧
     (calculate_bollinger_bands Real.sqrt xs 20 2).2.2.length = xs.length ∧
     ∀ t, t < xs.length →
       ((calculate_bollinger_bands Real.sqrt xs 20 2).1.getD t PF.nan = xs.getD t PF.nan ∨
         ∃ q, (calculate_bollinger_bands Real.sqrt xs 20 2).1.getD t PF.nan = PF.num q) ∧
       ((calculate_bollinger_bands Real.sqrt xs 20 2).2.1.getD t PF.nan = xs.getD t PF.nan ∨
         ∃ q, (calculate_bollinger_bands Real.sqrt xs 20 2).2.1.getD t PF.nan = PF.num q) ∧
       ((calculate_bollinger_bands Real.sqrt xs 20 2).2.2.getD t PF.nan = xs.getD t PF.nan ∨
         ∃ q, (calculate_bollinger_bands Real.sqrt xs 20 2).2.2.getD t PF.nan = PF.num q)) := by
  obtain ⟨hml, hmf⟩ := calculate_macd_finite xs hfin
  obtain ⟨hb1, hb2, hb3⟩ := bollinger_lengths Real.sqrt xs
  refine ⟨⟨calculate_rsi_length xs 14, ?_⟩,
    ⟨hml.1, hml.2.1, hml.2.2, hmf.1, hmf.2.1, hmf.2.2⟩,
    hb1, hb2, hb3, fun t ht => bollinger_entries Real.sqrt xs hfin t ht⟩
  intro v hv
  obtain ⟨q, hq, _, _⟩ := calculate_rsi_finite xs hfin v hv
  exact ⟨q, hq⟩

/-- Witness for C9 at a concrete three-bar series containing a NaN. -/
theorem c9_witness :
    ((calculate_rsi ([PF.num 1, PF.nan, PF.num 3] : List (PF ℝ)) 14).length
        = ([PF.num 1, PF.nan, PF.num 3] : List (PF ℝ)).length) ∧
    (∀ v ∈ calculate_rsi ([PF.num 1, PF.nan, PF.num 3] : List (PF ℝ)) 14,
      ∃ q, v = PF.num q) :=
  (c9_never_fatal ([PF.num 1, PF.nan, PF.num 3] : List (PF ℝ)) (by
    intro v hv
    simp only [List.mem_cons, List.not_mem_nil, or_false] at hv
    rcases hv with rfl | rfl | rfl
    · exact nn_num 1
    · exact nn_nan
    · exact nn_num 3)).1

end ClaimsRobustness

section ClaimsVelocity

variable {α : Type} [LinearOrderedField α]

/-- C10: `add_momentum_scores` feeds the same whole-symbol frame into every
row's velocity computation: there is a single velocity sub-score — the
`score_price_velocity` of the symbol's full close column, which only looks at
the frame's last close and the close `days` bars before the end — used in
every row's score, so two rows with equal indicator fields receive equal
momentum scores regardless of their position. -/
theorem c10_frame_level_velocity (rows : List (Row α)) (hne : rows ≠ []) :
    ∃ v : α, v = score_price_velocity (rows.map Row.close) 5 ∧
      (∀ (j : ℕ) (r : Row α), rows[j]? = some r →
        (add_momentum_scores rows)[j]? = some (max 0 (min 100
          (score_rsi r.rsi_14 * (30 / 100) +
           score_macd r.macd_12_26_9 r.macd_signal_9 r.macd_histogram * (30 / 100) +
           score_bollinger_bands r.close r.bollinger_upper_20 r.bollinger_middle_20
             r.bollinger_lower_20 * (20 / 100) +
           v * (20 / 100))))) ∧
      (∀ (j k : ℕ) (r s : Row α), rows[j]? = some r → rows[k]? = some s → r = s →
        (add_momentum_scores rows)[j]? = (add_momentum_scores rows)[k]?) := by
  have hpos : 0 < (rows.map Row.close).length := by
    rw [List.length_map]
    exact List.length_pos.mpr hne
  have hvel : velocityOf (some (rows.map Row.close))
      = score_price_velocity (rows.map Row.close) 5 := by
    rw [velocityOf, if_pos hpos]
  have hform : ∀ (j : ℕ) (r : Row α), rows[j]? = some r →
      (add_momentum_scores rows)[j]? = some (max 0 (min 100
        (score_rsi r.rsi_14 * (30 / 100) +
         score_macd r.macd_12_26_9 r.macd_signal_9 r.macd_histogram * (30 / 100) +
         score_bollinger_bands r.close r.bollinger_upper_20 r.bollinger_middle_20
           r.bollinger_lower_20 * (20 / 100) +
         score_price_velocity (rows.map Row.close) 5 * (20 / 100)))) := by
    intro j r hr
    rw [add_momentum_scores, List.getElem?_map, hr]
    show some (calculate_momentum_score r (some (rows.map Row.close))) = _
    have hcms : calculate_momentum_score r (some (rows.map Row.close)) = max 0 (min 100
        (score_rsi r.rsi_14 * (30 / 100) +
         score_macd r.macd_12_26_9 r.macd_signal_9 r.macd_histogram * (30 / 100) +
         score_bollinger_bands r.close r.bollinger_upper_20 r.bollinger_middle_20
           r.bollinger_lower_20 * (20 / 100) +
         velocityOf (some (rows.map Row.close)) * (20 / 100))) := rfl
    rw [hcms, hvel]
  refine ⟨score_price_velocity (rows.map Row.close) 5, rfl, hform, ?_⟩
  intro j k r s hr hs hrs
  rw [hform j r hr, hform k s hs, hrs]

/-- Witness for C10: a two-row frame with identical rows gets identical
momentum scores at both positions. -/
theorem c10_witness :
    (add_momentum_scores [Row.mk (1 : ℚ) 50 0 0 0 2 1 0, Row.mk (1 : ℚ) 50 0 0 0 2 1 0])[0]?
      = (add_momentum_scores
          [Row.mk (1 : ℚ) 50 0 0 0 2 1 0, Row.mk (1 : ℚ) 50 0 0 0 2 1 0])[1]? := by
  obtain ⟨v, hv, hform, heq⟩ := c10_frame_level_velocity
    [Row.mk (1 : ℚ) 50 0 0 0 2 1 0, Row.mk (1 : ℚ) 50 0 0 0 2 1 0] (by simp)
  exact heq 0 1 (Row.mk (1 : ℚ) 50 0 0 0 2 1 0) (Row.mk (1 : ℚ) 50 0 0 0 2 1 0) rfl rfl rfl

end ClaimsVelocity

